import Mathlib

/-!
# jts_telegraf — verification of the core spec claims

Shallow embedding of the measurement model, the stateful and stateless
processors (rate, jitter, monitoring, filtering, xreducer, xmetrictags,
enrichment), the gNMI path parser and the NETCONF (engine-B) reply
handling of the jts_telegraf repository, together with proofs settling
the spec claims about them.

Modelling conventions:
* Go strings are Lean `String`s; where byte-level hashing matters the
  inputs are ASCII so `Char.toNat` agrees with the UTF-8 bytes.
* `float64` is modelled by `ℚ`; every concrete computation evaluated in a
  theorem below is exact in IEEE-754 binary64 as well (integers below
  2^53 and divisions with exactly representable results).
* Go `time.Time`/`time.Duration` are nanosecond integers (`Int`);
  `.Seconds()` is division by 10^9 in `ℚ`.
* Go maps keyed by strings or hashes are modelled as functions into
  `Option`; insertion-ordered telegraf tag/field lists are key-value
  lists with replace-on-duplicate insertion.
* External library calls (telegraf `HashID`, `crypto/md5`,
  `encoding/json`, `strconv`, `time.Parse`) are taken as explicit
  function parameters of the embedded operations.
-/

/-- Field value union of the telegraf metric model (spec §3): a tagged union
over int64, uint64, float64, bool, string and bytes. -/
inductive FVal where
  | i64 (v : Int)
  | u64 (v : Nat)
  | f64 (v : ℚ)
  | str (v : String)
  | bool (v : Bool)
  | bytes (v : List Nat)
deriving DecidableEq

/-- A telegraf measurement: name, ordered tag map, ordered field map and a
timestamp in nanoseconds (spec §3). -/
structure Metric where
  name : String
  tags : List (String × String)
  fields : List (String × FVal)
  time : Int
deriving DecidableEq

/-- Key-value insertion with replace-on-existing-key semantics, the map
behaviour of telegraf AddTag/AddField. -/
def kvPut {α : Type} (l : List (String × α)) (k : String) (v : α) : List (String × α) :=
  if l.any (fun kv => kv.1 == k) then
    l.map (fun kv => if kv.1 == k then (k, v) else kv)
  else
    l ++ [(k, v)]

def getTag (m : Metric) (k : String) : Option String :=
  (m.tags.find? (fun kv => kv.1 == k)).map (fun kv => kv.2)

def hasTag (m : Metric) (k : String) : Bool :=
  (getTag m k).isSome

def getField (m : Metric) (k : String) : Option FVal :=
  (m.fields.find? (fun kv => kv.1 == k)).map (fun kv => kv.2)

def addTag (m : Metric) (k v : String) : Metric :=
  { m with tags := kvPut m.tags k v }

def addField (m : Metric) (k : String) (v : FVal) : Metric :=
  { m with fields := kvPut m.fields k v }

/-- `convert` shared by the rate, jitter and monitoring processors: a field
value is numeric when it is float64, int64 or uint64. -/
def convert : FVal → Option ℚ
  | .f64 v => some v
  | .i64 v => some (v : ℚ)
  | .u64 v => some (v : ℚ)
  | _ => none

/-- FNV-1a 64-bit offset basis. -/
def fnvOffset : Nat := 14695981039346656037

/-- FNV-1a 64-bit prime. -/
def fnvPrime : Nat := 1099511628211

/-- One FNV-1a step: xor the byte in, multiply by the prime, mod 2^64. -/
def fnvStep (h b : Nat) : Nat := ((h ^^^ b) * fnvPrime) % (2 ^ 64)

/-- `hash` from rate.go / jitter.go / xmetrictags.go: FNV-1a 64 of the
bytes of the string (ASCII inputs, so code points are the bytes). -/
def fnv64 (s : String) : Nat :=
  s.data.foldl (fun h c => fnvStep h c.toNat) fnvOffset

/-- Nanoseconds to seconds, the exact value of Go Duration.Seconds(). -/
def secondsOf (n : Int) : ℚ := (n : ℚ) / 1000000000

namespace Rate

/-- Configuration of the rate processor, durations already parsed to
nanoseconds (the source re-parses the TOML strings on each Apply). -/
structure Cfg where
  fields : List String
  suffix : String
  factor : ℚ
  deltaMinNs : Int
  periodNs : Int
  retentionNs : Int

/-- Cache entry `compute` of rate.go. -/
structure Compute where
  field_name : String
  field_value : ℚ
  tm : Int
deriving DecidableEq

/-- Mutable state of the processor: the lazily initialized flag, the sweep
clock and the cache keyed by the 64-bit fingerprint. -/
structure State where
  initialized : Bool
  last_cleared : Int
  cache : Nat → Option Compute

/-- Cache sweep of rate.go: delete every entry whose timestamp plus the
retention lies strictly before now. -/
def sweep (cache : Nat → Option Compute) (now retentionNs : Int) : Nat → Option Compute :=
  fun k =>
    match cache k with
    | some v => if now > v.tm + retentionNs then none else some v
    | none => none

/-- The concatenation of tag key-value pairs used to build the cache key. -/
def tagsString (m : Metric) : String :=
  m.tags.foldl (fun acc kv => acc ++ kv.1 ++ kv.2) ""

/-- Per-field body of Rate.Apply: compute the id, compare the elapsed time
with delta_min, append the rate field when non-negative, maintain the cache. -/
def processField (p : Cfg) (m : Metric) (tags : String)
    (acc : Metric × (Nat → Option Compute)) (kv : String × FVal) :
    Metric × (Nat → Option Compute) :=
  let met := acc.1
  let cache := acc.2
  if p.fields.contains kv.1 then
    match convert kv.2 with
    | some value =>
      let a : Compute := ⟨kv.1, value, m.time⟩
      let id := fnv64 (kv.1 ++ tags)
      match cache id with
      | some prev =>
        let delta : ℚ := secondsOf (m.time - prev.tm)
        if delta > secondsOf p.deltaMinNs then
          let field_rate := (value - prev.field_value) * p.factor / delta
          if field_rate ≥ 0 then
            (addField met (kv.1 ++ p.suffix) (.f64 field_rate), Function.update cache id (some a))
          else
            (met, Function.update cache id (some a))
        else
          (met, cache)
      | none => (met, Function.update cache id (some a))
    | none => (met, cache)
  else (met, cache)

/-- Rate.Apply on one metric: fold the per-field body over the metric's
field list (the Go range iterates the original list). -/
def applyMetric (p : Cfg) (cache : Nat → Option Compute) (m : Metric) :
    Metric × (Nat → Option Compute) :=
  m.fields.foldl (processField p m (tagsString m)) (m, cache)

/-- Rate.Apply: lazy initialization, periodic sweep, then the per-metric
processing threading the cache through the batch. -/
def Apply (p : Cfg) (st : State) (now : Int) (metrics : List Metric) :
    List Metric × State :=
  let st1 := if !st.initialized then
      { initialized := true, last_cleared := now, cache := fun _ => none }
    else st
  let st2 := if now > st1.last_cleared + p.periodNs then
      { st1 with cache := sweep st1.cache now p.retentionNs, last_cleared := now }
    else st1
  let res := metrics.foldl
      (fun (acc : List Metric × (Nat → Option Compute)) m =>
        let r := applyMetric p acc.2 m
        (acc.1 ++ [r.1], r.2))
      ([], st2.cache)
  (res.1, { st2 with cache := res.2 })

end Rate

/-- Boundary scenario against claim C2: the key is cached at t = 0 with value
1000 and the second sample carries value 2000 at exactly t = delta_min = 1s. -/
def c2Cfg : Rate.Cfg :=
  { fields := ["in_octets"], suffix := "_rate", factor := 8,
    deltaMinNs := 1000000000, periodNs := 300000000000,
    retentionNs := 3600000000000 }

def c2CachedEntry : Rate.Compute := ⟨"in_octets", 1000, 0⟩

def c2State : Rate.State :=
  { initialized := true, last_cleared := 0, cache := fun _ => some c2CachedEntry }

def c2Metric : Metric :=
  { name := "ifcounters", tags := [("device", "r1"), ("if", "ge-0")],
    fields := [("in_octets", FVal.u64 2000)], time := 1000000000 }

/-- C2 counterexample: with a prior cache entry and elapsed time delta_t equal
to delta_min (so the claim's premise delta_t ≥ delta_min holds and the rate
(2000−1000)·8/1 is non-negative), the claim predicts that the field
in_octets_rate is added and the cache entry overwritten; the code compares
with strict inequality (delta > delta_min) and does neither. -/
theorem rate_delta_min_boundary_refutes_claim :
    (Rate.Apply c2Cfg c2State 1 [c2Metric]).1.map (fun mm => getField mm "in_octets_rate") = [none]
    ∧ (Rate.Apply c2Cfg c2State 1 [c2Metric]).2.cache
        (fnv64 ("in_octets" ++ Rate.tagsString c2Metric)) = some c2CachedEntry
    ∧ secondsOf (c2Metric.time - c2CachedEntry.tm) = secondsOf c2Cfg.deltaMinNs
    ∧ ((2000 - 1000) * c2Cfg.factor / 1 ≥ (0 : ℚ)) := by
  refine ⟨?_, ?_, ?_, ?_⟩ <;>
    (norm_num [Rate.Apply, Rate.applyMetric, Rate.processField, Rate.tagsString,
      c2Cfg, c2State, c2CachedEntry, c2Metric, getField, convert, secondsOf];
     try decide)

/-- C2 amended claim: with a prior cache entry under the same key and elapsed
time strictly greater than delta_min (the source compares with >, not ≥),
Apply adds the field key+suffix valued (v − v_prev)·factor/delta_t when that
rate is non-negative, leaves the metric unchanged when it is negative, and in
both cases overwrites the cache entry with the current sample. -/
theorem rate_apply_adds_rate_field_of_delta_gt (p : Rate.Cfg) (st : Rate.State)
    (now : Int) (m : Metric) (key : String) (fv : FVal) (v : ℚ) (prev : Rate.Compute)
    (hinit : st.initialized = true)
    (hsweep : ¬ now > st.last_cleared + p.periodNs)
    (hfields : m.fields = [(key, fv)])
    (hconf : p.fields.contains key = true)
    (hconv : convert fv = some v)
    (hcache : st.cache (fnv64 (key ++ Rate.tagsString m)) = some prev)
    (hdelta : secondsOf (m.time - prev.tm) > secondsOf p.deltaMinNs) :
    (Rate.Apply p st now [m]).1 =
      [if (v - prev.field_value) * p.factor / secondsOf (m.time - prev.tm) ≥ 0 then
         addField m (key ++ p.suffix)
           (FVal.f64 ((v - prev.field_value) * p.factor / secondsOf (m.time - prev.tm)))
       else m]
    ∧ (Rate.Apply p st now [m]).2.cache (fnv64 (key ++ Rate.tagsString m))
        = some ⟨key, v, m.time⟩ := by
  unfold Rate.Apply
  simp only [hinit, Bool.not_true, Bool.false_eq_true, if_false, if_neg hsweep,
    List.foldl_cons, List.foldl_nil, Rate.applyMetric, hfields]
  unfold Rate.processField
  simp only [hconf, if_true, hconv, hcache, if_pos hdelta]
  split
  · exact ⟨by simp, by simp [Function.update_same]⟩
  · exact ⟨by simp, by simp [Function.update_same]⟩

/-- Scenario S1 of the spec: factor 8, delta_min 1s, suffix _rate, cached
in_octets = 1000 at t = 0, second sample 2000 at t = 10s. -/
def s1Cfg : Rate.Cfg :=
  { fields := ["in_octets"], suffix := "_rate", factor := 8,
    deltaMinNs := 1000000000, periodNs := 300000000000,
    retentionNs := 3600000000000 }

def s1CachedEntry : Rate.Compute := ⟨"in_octets", 1000, 0⟩

def s1State : Rate.State :=
  { initialized := true, last_cleared := 0, cache := fun _ => some s1CachedEntry }

def s1Metric : Metric :=
  { name := "ifcounters", tags := [("device", "r1"), ("if", "ge-0")],
    fields := [("in_octets", FVal.u64 2000)], time := 10000000000 }

/-- Witness instantiating the amended C2 theorem on scenario S1: the second
measurement gains in_octets_rate = (2000−1000)·8/10 = 800 and the cache entry
is overwritten with the current sample. -/
theorem rate_apply_adds_rate_field_of_delta_gt_witness :
    (Rate.Apply s1Cfg s1State 1 [s1Metric]).1 =
      [addField s1Metric "in_octets_rate" (FVal.f64 800)]
    ∧ (Rate.Apply s1Cfg s1State 1 [s1Metric]).2.cache
        (fnv64 ("in_octets" ++ Rate.tagsString s1Metric)) =
      some ⟨"in_octets", 2000, 10000000000⟩ := by
  have h := rate_apply_adds_rate_field_of_delta_gt s1Cfg s1State 1 s1Metric
    "in_octets" (FVal.u64 2000) 2000 s1CachedEntry rfl (by decide) rfl
    (by decide) (by norm_num [convert]) rfl
    (by norm_num [s1Metric, s1CachedEntry, s1Cfg, secondsOf])
  refine ⟨?_, h.2⟩
  rw [h.1]
  norm_num [s1Metric, s1CachedEntry, s1Cfg, secondsOf]
  rfl

namespace Jitter

/-- Configuration of the jitter processor, durations parsed to nanoseconds. -/
structure Cfg where
  fields : List String
  intervalNs : Int
  jitterMaxNs : Int
  periodNs : Int
  retentionNs : Int

/-- Cache entry `compute` of jitter.go. -/
structure Compute where
  field_name : String
  field_value : ℚ
  tm : Int
deriving DecidableEq

/-- Mutable state of the jitter processor. -/
structure State where
  initialized : Bool
  last_cleared : Int
  cache : Nat → Option Compute

/-- Cache sweep of jitter.go. -/
def sweep (cache : Nat → Option Compute) (now retentionNs : Int) : Nat → Option Compute :=
  fun k =>
    match cache k with
    | some v => if now > v.tm + retentionNs then none else some v
    | none => none

/-- Concatenated tag pairs used for the cache key. -/
def tagsString (m : Metric) : String :=
  m.tags.foldl (fun acc kv => acc ++ kv.1 ++ kv.2) ""

/-- The alarm built on an exceeded jitter: measurement JITTER_MEASUREMENT with
the single field exception = delta seconds and all tags of the original
metric copied in. -/
def mkAlarm (m : Metric) (delta : ℚ) : Metric :=
  m.tags.foldl (fun alarm kv => addTag alarm kv.1 kv.2)
    { name := "JITTER_MEASUREMENT", tags := [],
      fields := [("exception", FVal.f64 delta)], time := m.time }

/-- Per-field body of Jitter.Apply: on a cache hit compare delta with
interval ± jitter_max, append an alarm when outside, and always overwrite the
cache entry with the current sample. -/
def processField (p : Cfg) (m : Metric) (tags : String)
    (acc : List Metric × (Nat → Option Compute)) (kv : String × FVal) :
    List Metric × (Nat → Option Compute) :=
  let alarms := acc.1
  let cache := acc.2
  if p.fields.contains kv.1 then
    match convert kv.2 with
    | some value =>
      let a : Compute := ⟨kv.1, value, m.time⟩
      let id := fnv64 (kv.1 ++ tags)
      match cache id with
      | some prev =>
        let delta : ℚ := secondsOf (m.time - prev.tm)
        if delta ≥ secondsOf p.intervalNs + secondsOf p.jitterMaxNs
            ∨ delta ≤ secondsOf p.intervalNs - secondsOf p.jitterMaxNs then
          (alarms ++ [mkAlarm m delta], Function.update cache id (some a))
        else
          (alarms, Function.update cache id (some a))
      | none => (alarms, Function.update cache id (some a))
    | none => (alarms, cache)
  else (alarms, cache)

/-- Jitter.Apply: lazy initialization, sweep, per-metric per-field
processing collecting the alarms, which are appended after the batch. -/
def Apply (p : Cfg) (st : State) (now : Int) (metrics : List Metric) :
    List Metric × State :=
  let st1 := if !st.initialized then
      { initialized := true, last_cleared := now, cache := fun _ => none }
    else st
  let st2 := if now > st1.last_cleared + p.periodNs then
      { st1 with cache := sweep st1.cache now p.retentionNs, last_cleared := now }
    else st1
  let res := metrics.foldl
      (fun (acc : List Metric × (Nat → Option Compute)) m =>
        m.fields.foldl (processField p m (tagsString m)) acc)
      ([], st2.cache)
  (metrics ++ res.1, { st2 with cache := res.2 })

end Jitter

/-- Boundary scenario against claim C3: interval 30s, jitter_max 1s, cached
sample at t = 0 and current sample at t = 31s, so delta − interval equals
jitter_max exactly. -/
def c3Cfg : Jitter.Cfg :=
  { fields := ["in_octets"], intervalNs := 30000000000,
    jitterMaxNs := 1000000000, periodNs := 300000000000,
    retentionNs := 3600000000000 }

def c3CachedEntry : Jitter.Compute := ⟨"in_octets", 1000, 0⟩

def c3State : Jitter.State :=
  { initialized := true, last_cleared := 0, cache := fun _ => some c3CachedEntry }

def c3Metric : Metric :=
  { name := "ifcounters", tags := [("device", "r1"), ("if", "ge-0")],
    fields := [("in_octets", FVal.u64 1500)], time := 31000000000 }

/-- C3 counterexample: at |delta_t − interval| = jitter_max the claim says no
JITTER_MEASUREMENT is emitted (strict >), but the source compares with ≥ and
emits the alarm. -/
theorem jitter_boundary_refutes_claim :
    (Jitter.Apply c3Cfg c3State 1 [c3Metric]).1 =
      [c3Metric, Jitter.mkAlarm c3Metric 31]
    ∧ ¬ |(31 : ℚ) - 30| > 1 := by
  constructor
  · norm_num [Jitter.Apply, Jitter.processField, Jitter.tagsString,
      c3Cfg, c3State, c3CachedEntry, c3Metric, convert, secondsOf]
  · norm_num

/-- C3 amended claim: with a prior cache entry under the same key, Apply
emits the extra JITTER_MEASUREMENT (field exception = delta_t seconds, all
original tags) iff |delta_t − interval| ≥ jitter_max (the source bounds are
inclusive, not strict), and in every case overwrites the cache entry with the
current sample. -/
theorem jitter_apply_emits_iff_ge (p : Jitter.Cfg) (st : Jitter.State)
    (now : Int) (m : Metric) (key : String) (fv : FVal) (v : ℚ) (prev : Jitter.Compute)
    (hinit : st.initialized = true)
    (hsweep : ¬ now > st.last_cleared + p.periodNs)
    (hfields : m.fields = [(key, fv)])
    (hconf : p.fields.contains key = true)
    (hconv : convert fv = some v)
    (hcache : st.cache (fnv64 (key ++ Jitter.tagsString m)) = some prev) :
    (Jitter.Apply p st now [m]).1 =
      (if secondsOf p.jitterMaxNs ≤ |secondsOf (m.time - prev.tm) - secondsOf p.intervalNs|
       then [m, Jitter.mkAlarm m (secondsOf (m.time - prev.tm))]
       else [m])
    ∧ (Jitter.Apply p st now [m]).2.cache (fnv64 (key ++ Jitter.tagsString m))
        = some ⟨key, v, m.time⟩ := by
  have hiff : (secondsOf (m.time - prev.tm) ≥ secondsOf p.intervalNs + secondsOf p.jitterMaxNs
      ∨ secondsOf (m.time - prev.tm) ≤ secondsOf p.intervalNs - secondsOf p.jitterMaxNs)
      ↔ secondsOf p.jitterMaxNs ≤ |secondsOf (m.time - prev.tm) - secondsOf p.intervalNs| := by
    rw [le_abs]
    constructor
    · rintro (h | h)
      · left; linarith
      · right; linarith
    · rintro (h | h)
      · left; linarith
      · right; linarith
  unfold Jitter.Apply
  simp only [hinit, Bool.not_true, Bool.false_eq_true, if_false, if_neg hsweep,
    List.foldl_cons, List.foldl_nil, hfields]
  unfold Jitter.processField
  simp only [hconf, if_true, hconv, hcache]
  simp only [hiff]
  constructor
  · split
    · simp
    · simp
  · split
    · simp [Function.update_same]
    · simp [Function.update_same]

/-- Scenario S2 of the spec: interval 30s, jitter_max 1s, cached sample at
t = 0, current sample at t = 32s. -/
def s2Cfg : Jitter.Cfg :=
  { fields := ["in_octets"], intervalNs := 30000000000,
    jitterMaxNs := 1000000000, periodNs := 300000000000,
    retentionNs := 3600000000000 }

def s2CachedEntry : Jitter.Compute := ⟨"in_octets", 1000, 0⟩

def s2State : Jitter.State :=
  { initialized := true, last_cleared := 0, cache := fun _ => some s2CachedEntry }

def s2Metric : Metric :=
  { name := "ifcounters", tags := [("device", "r1"), ("if", "ge-0")],
    fields := [("in_octets", FVal.u64 1500)], time := 32000000000 }

/-- Witness instantiating the amended C3 theorem on scenario S2: delta_t = 32s,
|32 − 30| = 2 ≥ 1, so an extra JITTER_MEASUREMENT with exception = 32 is
appended and the cache entry is overwritten. -/
theorem jitter_apply_emits_iff_ge_witness :
    (Jitter.Apply s2Cfg s2State 1 [s2Metric]).1 =
      [s2Metric, Jitter.mkAlarm s2Metric 32]
    ∧ (Jitter.Apply s2Cfg s2State 1 [s2Metric]).2.cache
        (fnv64 ("in_octets" ++ Jitter.tagsString s2Metric)) =
      some ⟨"in_octets", 1500, 32000000000⟩ := by
  have h := jitter_apply_emits_iff_ge s2Cfg s2State 1 s2Metric
    "in_octets" (FVal.u64 1500) 1500 s2CachedEntry rfl (by decide) rfl
    (by decide) (by norm_num [convert]) rfl
  refine ⟨?_, h.2⟩
  rw [h.1]
  norm_num [s2Metric, s2CachedEntry, s2Cfg, secondsOf]

namespace Monitoring

/-- A monitoring probe of part_005 (struct Probe). -/
structure Probe where
  alarmName : String
  field : String
  probeType : String
  threshold : ℚ
  minValue : ℚ
  operator : String
  copyTag : Bool
  tags : List String

/-- Configuration of the monitoring processor. -/
structure Cfg where
  measurement : String
  tagName : String
  periodNs : Int
  retentionNs : Int
  probes : List Probe

/-- Cache entry `compute` of part_005: the numeric snapshot of the configured
fields of one metric plus its name, tags and time. -/
structure Compute where
  fields : List (String × ℚ)
  name : String
  tags : List (String × String)
  tm : Int

/-- Mutable state of the monitoring processor. -/
structure State where
  initialized : Bool
  last_cleared : Int
  cache : Nat → Option Compute

/-- fields_map built at initialization: probes indexed by monitored field,
last probe for a field winning as in Go map insertion. -/
def fieldsMap (probes : List Probe) (key : String) : Option Probe :=
  probes.foldl (fun acc pr => if pr.field == key then some pr else acc) none

/-- Cache sweep of part_005. -/
def sweep (cache : Nat → Option Compute) (now retentionNs : Int) : Nat → Option Compute :=
  fun k =>
    match cache k with
    | some v => if now > v.tm + retentionNs then none else some v
    | none => none

/-- The snapshot `a` built per metric: every configured field is written into
a.fields (zero when the value is not numeric, as the Go two-value assignment
does), and hasField records whether some configured field converted. -/
def buildCompute (cfg : Cfg) (m : Metric) : Compute × Bool :=
  m.fields.foldl
    (fun (acc : Compute × Bool) kv =>
      match fieldsMap cfg.probes kv.1 with
      | some _ =>
        match convert kv.2 with
        | some q => ({ acc.1 with fields := kvPut acc.1.fields kv.1 q }, true)
        | none => ({ acc.1 with fields := kvPut acc.1.fields kv.1 0 }, acc.2)
      | none => acc)
    ({ fields := [], name := m.name, tags := m.tags, tm := m.time }, false)

/-- The operator switch shared by all four probe modes. -/
def opCompare (op : String) (x thr : ℚ) : Bool :=
  if op == "lt" then decide (x < thr)
  else if op == "gt" then decide (x > thr)
  else if op == "eq" then decide (x = thr)
  else false

/-- The alarm metric: measurement name, tag tag_name = alarm_name, the copied
tags controlled by copy_tag/tags, the single exception field and the original
metric time. -/
def mkAlarm (cfg : Cfg) (pr : Probe) (a : Compute) (exception : ℚ) (tm : Int) : Metric :=
  let alarm := addTag ⟨cfg.measurement, [], [("exception", FVal.f64 exception)], tm⟩
      cfg.tagName pr.alarmName
  if pr.copyTag then
    if pr.tags.length > 0 then
      pr.tags.foldl
        (fun al v =>
          match a.tags.find? (fun kv => kv.1 == v) with
          | some kv => addTag al v kv.2
          | none => al) alarm
    else
      a.tags.foldl (fun al kv => addTag al kv.1 kv.2) alarm
  else alarm

/-- Per-configured-field body of Monitoring.Apply: min_value gate, then the
probe-type switch with the threshold comparison, alarm emission and (for the
delta family) the cache update. -/
def processKey (cfg : Cfg) (id : Nat) (a : Compute) (tm : Int)
    (acc : List Metric × (Nat → Option Compute)) (kv : String × ℚ) :
    List Metric × (Nat → Option Compute) :=
  let alarms := acc.1
  let cache := acc.2
  match fieldsMap cfg.probes kv.1 with
  | none => acc
  | some pr =>
    if kv.2 ≥ pr.minValue then
      if pr.probeType == "current" then
        if opCompare pr.operator kv.2 pr.threshold then
          (alarms ++ [mkAlarm cfg pr a kv.2 tm], cache)
        else acc
      else if pr.probeType == "delta" then
        match cache id with
        | none => (alarms, Function.update cache id (some a))
        | some prevC =>
          match prevC.fields.find? (fun c => c.1 == kv.1) with
          | some lv =>
            let d := kv.2 - lv.2
            if opCompare pr.operator d pr.threshold then
              (alarms ++ [mkAlarm cfg pr a d tm], Function.update cache id (some a))
            else (alarms, Function.update cache id (some a))
          | none => (alarms, Function.update cache id (some a))
      else if pr.probeType == "delta_percent" then
        match cache id with
        | none => (alarms, Function.update cache id (some a))
        | some prevC =>
          match prevC.fields.find? (fun c => c.1 == kv.1) with
          | some lv =>
            let d := (kv.2 - lv.2) / lv.2 * 100
            if opCompare pr.operator d pr.threshold then
              (alarms ++ [mkAlarm cfg pr a d tm], Function.update cache id (some a))
            else (alarms, Function.update cache id (some a))
          | none => (alarms, Function.update cache id (some a))
      else if pr.probeType == "delta_rate" then
        match cache id with
        | none => (alarms, Function.update cache id (some a))
        | some prevC =>
          match prevC.fields.find? (fun c => c.1 == kv.1) with
          | some lv =>
            let d := (kv.2 - lv.2) / secondsOf (tm - prevC.tm)
            if opCompare pr.operator d pr.threshold then
              (alarms ++ [mkAlarm cfg pr a d tm], Function.update cache id (some a))
            else (alarms, Function.update cache id (some a))
          | none => (alarms, Function.update cache id (some a))
      else acc
    else acc

/-- Monitoring.Apply: lazy initialization, sweep, per-metric snapshot and
per-configured-field probing; the alarms are appended after the batch.
hashID is telegraf's series HashID, passed as a parameter. -/
def Apply (cfg : Cfg) (hashID : Metric → Nat) (st : State) (now : Int)
    (metrics : List Metric) : List Metric × State :=
  let st1 := if !st.initialized then
      { initialized := true, last_cleared := now, cache := fun _ => none }
    else st
  let st2 := if now > st1.last_cleared + cfg.periodNs then
      { st1 with cache := sweep st1.cache now cfg.retentionNs, last_cleared := now }
    else st1
  let res := metrics.foldl
      (fun (acc : List Metric × (Nat → Option Compute)) m =>
        let id := hashID m
        let ab := buildCompute cfg m
        if ab.2 then ab.1.fields.foldl (processKey cfg id ab.1 m.time) acc else acc)
      ([], st2.cache)
  (metrics ++ res.1, { st2 with cache := res.2 })

end Monitoring

/-- C4 confirmed: in mode probe_type = current with operator = gt, for a
metric carrying the configured probe field with numeric value v, the alarm
measurement (cfg.measurement, tag tag_name = alarm_name plus copied tags,
single field exception = v, original timestamp) is appended to the returned
batch if and only if v > threshold and v ≥ min_value; the cache is untouched
in this mode. -/
theorem monitoring_current_gt_emits_iff (cfg : Monitoring.Cfg) (hashID : Metric → Nat)
    (st : Monitoring.State) (now : Int) (m : Metric) (pr : Monitoring.Probe)
    (key : String) (fv : FVal) (v : ℚ)
    (hinit : st.initialized = true)
    (hsweep : ¬ now > st.last_cleared + cfg.periodNs)
    (hprobes : cfg.probes = [pr])
    (hfield : pr.field = key)
    (htype : pr.probeType = "current")
    (hop : pr.operator = "gt")
    (hfields : m.fields = [(key, fv)])
    (hconv : convert fv = some v) :
    (Monitoring.Apply cfg hashID st now [m]).1 =
      (if v > pr.threshold ∧ v ≥ pr.minValue then
        [m, Monitoring.mkAlarm cfg pr ⟨[(key, v)], m.name, m.tags, m.time⟩ v m.time]
       else [m])
    ∧ (Monitoring.Apply cfg hashID st now [m]).2.cache = st.cache := by
  have hb : Monitoring.buildCompute cfg m =
      ({ fields := [(key, v)], name := m.name, tags := m.tags, tm := m.time }, true) := by
    unfold Monitoring.buildCompute
    rw [hfields]
    simp [Monitoring.fieldsMap, hprobes, hfield, hconv, kvPut]
  unfold Monitoring.Apply
  simp only [hinit, Bool.not_true, Bool.false_eq_true, if_false, if_neg hsweep,
    List.foldl_cons, List.foldl_nil, hb, if_true]
  unfold Monitoring.processKey
  simp only [Monitoring.fieldsMap, List.foldl_cons, List.foldl_nil, hprobes, hfield,
    beq_self_eq_true, if_true, htype, hop, Monitoring.opCompare]
  by_cases h1 : v ≥ pr.minValue <;> by_cases h2 : v > pr.threshold <;>
    simp [h1, h2]

/-- Concrete monitoring scenario for the C4 witness: probe CPU_HIGH on
idle_cpu, current/gt, threshold 80, min_value 0, copy_tag with filter
["device"]; the metric carries idle_cpu = 85. -/
def c4Probe : Monitoring.Probe :=
  { alarmName := "CPU_HIGH", field := "idle_cpu", probeType := "current",
    threshold := 80, minValue := 0, operator := "gt", copyTag := true,
    tags := ["device"] }

def c4Cfg : Monitoring.Cfg :=
  { measurement := "ALARMING", tagName := "ALARM_TYPE",
    periodNs := 600000000000, retentionNs := 3600000000000,
    probes := [c4Probe] }

def c4State : Monitoring.State :=
  { initialized := true, last_cleared := 0, cache := fun _ => none }

def c4Metric : Metric :=
  { name := "cpu", tags := [("device", "r1"), ("component_name", "RE0")],
    fields := [("idle_cpu", FVal.f64 85)], time := 5 }

/-- Witness instantiating the C4 theorem: 85 > 80 and 85 ≥ 0, so the batch
gains the alarm, which carries the ALARM_TYPE tag and the copied device tag;
the cache is untouched. -/
theorem monitoring_current_gt_emits_iff_witness :
    (Monitoring.Apply c4Cfg (fun _ => 0) c4State 1 [c4Metric]).1 =
      [c4Metric,
       Monitoring.mkAlarm c4Cfg c4Probe
         ⟨[("idle_cpu", 85)], "cpu", [("device", "r1"), ("component_name", "RE0")], 5⟩ 85 5]
    ∧ (Monitoring.Apply c4Cfg (fun _ => 0) c4State 1 [c4Metric]).2.cache = c4State.cache
    ∧ (Monitoring.mkAlarm c4Cfg c4Probe
         ⟨[("idle_cpu", 85)], "cpu", [("device", "r1"), ("component_name", "RE0")], 5⟩ 85 5).tags =
        [("ALARM_TYPE", "CPU_HIGH"), ("device", "r1")] := by
  have h := monitoring_current_gt_emits_iff c4Cfg (fun _ => 0) c4State 1 c4Metric
    c4Probe "idle_cpu" (FVal.f64 85) 85 rfl (by decide) rfl rfl rfl rfl rfl
    (by norm_num [convert])
  refine ⟨?_, h.2, ?_⟩
  · rw [h.1]
    norm_num [c4Probe, c4Metric]
  · simp [Monitoring.mkAlarm, c4Cfg, c4Probe, addTag, kvPut]

namespace Filtering

/-- A filtering rule of filtering.go. -/
structure Rule where
  key : String
  pattern : String
  action : String

/-- Configuration: tag rules and field rules. -/
structure Cfg where
  tags : List Rule
  fields : List Rule

/-- Whether the first character list begins with the second one. -/
def beginsWith : List Char → List Char → Bool
  | _, [] => true
  | [], _ :: _ => false
  | c :: cs, d :: ds => c == d && beginsWith cs ds

/-- Whether the first character list ends with the second one. -/
def finishesWith (s pat : List Char) : Bool :=
  beginsWith s.reverse pat.reverse

/-- Whether the second character list occurs inside the first one. -/
def containsSeg : List Char → List Char → Bool
  | [], pat => pat.isEmpty
  | c :: cs, pat => beginsWith (c :: cs) pat || containsSeg cs pat

/-- Models Go regexp MatchString for the metacharacter-free patterns used in
this development: an optional leading ^ anchor, a literal body, an optional
trailing $ anchor; matching is substring containment constrained by the
anchors (for the pattern ^r1$ this is exactly string equality with r1). -/
def regexMatch (pat s : String) : Bool :=
  let p0 := pat.data
  let hasStart := !p0.isEmpty && p0.headD ' ' == '^'
  let p1 := if hasStart then p0.tail else p0
  let hasEnd := !p1.isEmpty && p1.getLastD ' ' == '$'
  let lit := if hasEnd then p1.dropLast else p1
  if hasStart && hasEnd then s.data == lit
  else if hasStart then beginsWith s.data lit
  else if hasEnd then finishesWith s.data lit
  else containsSeg s.data lit

/-- The per-metric drop flag of Filtering.Apply: tag rules then field rules;
drop on match for action drop, drop on non-match for action accept; only
string-valued fields participate; the flag is only ever raised. -/
def metricToDrop (cfg : Cfg) (m : Metric) : Bool :=
  let afterTags := cfg.tags.foldl
    (fun flag rule =>
      match getTag m rule.key with
      | some value =>
        if regexMatch rule.pattern value then
          (if rule.action == "drop" then true else flag)
        else
          (if rule.action == "accept" then true else flag)
      | none => flag) false
  cfg.fields.foldl
    (fun flag rule =>
      match getField m rule.key with
      | some (FVal.str value) =>
        if regexMatch rule.pattern value then
          (if rule.action == "drop" then true else flag)
        else
          (if rule.action == "accept" then true else flag)
      | _ => flag) afterTags

/-- `remove` of filtering.go on the live slice (backing array arr, live
length len): the parallel assignment slice[len−1], slice[i] = slice[i],
slice[len−1] followed by the truncation; none models the Go index-out-of-range
panic raised when i is not a valid index of the live slice. -/
def removeAt (arr : Array Metric) (len i : Nat) : Option (Array Metric × Nat) :=
  if i < len then
    match arr.get? i, arr.get? (len - 1) with
    | some x, some y => some ((arr.setD (len - 1) x).setD i y, len - 1)
    | _, _ => none
  else none

/-- Filtering.Apply with Go range-over-slice semantics: the loop iterates
over the header copied at loop entry (original length, shared backing array)
while `metrics = remove(metrics, idx)` shrinks only the live slice, so later
iterations read the mutated backing array and can call remove with an index
beyond the live length. -/
def Apply (cfg : Cfg) (metrics : List Metric) : Option (List Metric) :=
  let A := metrics.toArray
  let r := (List.range A.size).foldl
    (fun (st : Option (Array Metric × Nat)) i =>
      match st with
      | none => none
      | some (arr, len) =>
        match arr.get? i with
        | none => none
        | some met =>
          if metricToDrop cfg met then removeAt arr len i else some (arr, len))
    (some (A, A.size))
  match r with
  | some (arr, len) => some (arr.toList.take len)
  | none => none

end Filtering

/-- Scenario S4: the single tag rule device ~ ^r1$ with action drop, applied
to three metrics whose device tags are r1, r2, r1. -/
def c5Cfg : Filtering.Cfg :=
  { tags := [⟨"device", "^r1$", "drop"⟩], fields := [] }

def c5m1 : Metric := { name := "x", tags := [("device", "r1")], fields := [], time := 0 }

def c5m2 : Metric := { name := "x", tags := [("device", "r2")], fields := [], time := 0 }

def c5m3 : Metric := { name := "x", tags := [("device", "r1")], fields := [], time := 0 }

/-- C5: on the S4 input the embedded Apply panics (returns none) instead of
returning the single device=r2 metric: dropping m1 swaps m3 and m1 in the
shared backing array and truncates the live slice to length 2, the range
loop still reaches index 2 where it reads the already-dropped m1 again, and
remove is called with index 2 on a slice of length 2 — index out of range.
The per-metric flags show the intended outcome was to keep only m2. -/
theorem filtering_s4_panics :
    Filtering.Apply c5Cfg [c5m1, c5m2, c5m3] = none
    ∧ Filtering.metricToDrop c5Cfg c5m1 = true
    ∧ Filtering.metricToDrop c5Cfg c5m2 = false
    ∧ Filtering.metricToDrop c5Cfg c5m3 = true := by
  refine ⟨?_, ?_, ?_, ?_⟩ <;> decide

namespace XReducer

/-- A reduction entry of xreducer.go (struct Match): the key to shorten, or
the keyword all. -/
structure Match where
  key : String

/-- Configuration: tag entries and field entries. -/
structure Cfg where
  tags : List Match
  fields : List Match

/-- strings.Split on the slash, over the character list. -/
def splitSlash : List Char → List (List Char)
  | [] => [[]]
  | c :: cs =>
    if c = '/' then [] :: splitSlash cs
    else
      match splitSlash cs with
      | [] => [[c]]
      | seg :: rest => (c :: seg) :: rest

/-- parts[len(parts)−1]: the last path segment. -/
def lastSeg (k : List Char) : List Char :=
  (splitSlash k).getLastD []

/-- One rule applied to one key: when the rule matches (equal key or the
keyword all) and the key contains a slash, the key becomes its last path
segment; values are never touched. -/
def reduceKey (rk : String) (k : String) : String :=
  if (k == rk || rk == "all") && k.data.contains '/' then
    String.mk (lastSeg k.data)
  else k

/-- The whole rule list applied to one key, in configured order. -/
def keyReduce (rules : List Match) (k : String) : String :=
  rules.foldl (fun s e => reduceKey e.key s) k

/-- XReducer.Apply on one metric: every tag pass then every field pass, each
pass rewriting the keys in place. -/
def applyMetric (cfg : Cfg) (m : Metric) : Metric :=
  { m with
    tags := cfg.tags.foldl
      (fun ts e => ts.map (fun kv => (reduceKey e.key kv.1, kv.2))) m.tags,
    fields := cfg.fields.foldl
      (fun fs e => fs.map (fun kv => (reduceKey e.key kv.1, kv.2))) m.fields }

/-- XReducer.Apply over a batch. -/
def Apply (cfg : Cfg) (metrics : List Metric) : List Metric :=
  metrics.map (applyMetric cfg)

theorem splitSlash_ne_nil (l : List Char) : splitSlash l ≠ [] := by
  cases l with
  | nil => simp [splitSlash]
  | cons c cs =>
    by_cases h : c = '/'
    · simp [splitSlash, h]
    · simp only [splitSlash, if_neg h]
      cases splitSlash cs <;> simp

theorem mem_splitSlash_no_slash :
    ∀ (l : List Char) (seg : List Char), seg ∈ splitSlash l → '/' ∉ seg := by
  intro l
  induction l with
  | nil => intro seg hs; simp [splitSlash] at hs; simp [hs]
  | cons c cs ih =>
    intro seg hs
    by_cases h : c = '/'
    · simp only [splitSlash, if_pos h, List.mem_cons] at hs
      rcases hs with rfl | hs
      · simp
      · exact ih seg hs
    · simp only [splitSlash, if_neg h] at hs
      rcases hseq : splitSlash cs with _ | ⟨s0, rest⟩
      · exact absurd hseq (splitSlash_ne_nil cs)
      · rw [hseq] at hs
        simp only [List.mem_cons] at hs
        rcases hs with rfl | hs
        · intro hmem
          rcases List.mem_cons.mp hmem with rfl | hmem0
          · exact h rfl
          · exact ih s0 (by rw [hseq]; exact List.mem_cons_self s0 rest) hmem0
        · exact ih seg (by rw [hseq]; exact List.mem_cons_of_mem s0 hs)

theorem getLastD_mem_cons {α : Type} : ∀ (l : List α) (a : α), l.getLastD a ∈ a :: l := by
  intro l
  induction l with
  | nil => intro a; simp
  | cons b t ih =>
    intro a
    rw [List.getLastD_cons]
    exact List.mem_cons_of_mem a (ih b)

theorem lastSeg_no_slash (k : List Char) : '/' ∉ lastSeg k := by
  unfold lastSeg
  rcases hseq : splitSlash k with _ | ⟨s0, rest⟩
  · exact absurd hseq (splitSlash_ne_nil k)
  · have hmem : (s0 :: rest).getLastD [] ∈ s0 :: rest := by
      rw [List.getLastD_cons]
      exact getLastD_mem_cons rest s0
    exact mem_splitSlash_no_slash k _ (by rw [hseq]; exact hmem)

theorem contains_eq_false_iff (l : List Char) (c : Char) :
    l.contains c = false ↔ c ∉ l := by
  constructor
  · intro h hm
    have h2 : l.contains c = true := List.elem_iff.mpr hm
    rw [h] at h2
    cases h2
  · intro h
    cases hcc : l.contains c
    · rfl
    · exact absurd (List.elem_iff.mp hcc) h

theorem reduceKey_of_no_slash (rk k : String)
    (h : k.data.contains '/' = false) : reduceKey rk k = k := by
  unfold reduceKey
  rw [h]
  simp

theorem reduceKey_cases (rk k : String) :
    reduceKey rk k = k ∨ (reduceKey rk k).data.contains '/' = false := by
  unfold reduceKey
  split
  · right
    exact (contains_eq_false_iff _ _).mpr (lastSeg_no_slash k.data)
  · left; rfl

theorem keyReduce_of_no_slash (rules : List Match) (k : String)
    (h : k.data.contains '/' = false) : keyReduce rules k = k := by
  induction rules with
  | nil => rfl
  | cons e es ih =>
    show keyReduce es (reduceKey e.key k) = k
    rw [reduceKey_of_no_slash e.key k h, ih]

theorem keyReduce_cons (e : Match) (es : List Match) (k : String) :
    keyReduce (e :: es) k = keyReduce es (reduceKey e.key k) := rfl

theorem keyReduce_cases (rules : List Match) (k : String) :
    keyReduce rules k = k ∨ (keyReduce rules k).data.contains '/' = false := by
  induction rules generalizing k with
  | nil => left; rfl
  | cons e es ih =>
    rw [keyReduce_cons]
    rcases reduceKey_cases e.key k with heq | hns
    · rw [heq]; exact ih k
    · right
      rw [keyReduce_of_no_slash es _ hns]
      exact hns

theorem keyReduce_idem (rules : List Match) (k : String) :
    keyReduce rules (keyReduce rules k) = keyReduce rules k := by
  rcases keyReduce_cases rules k with heq | hns
  · rw [heq, heq]
  · exact keyReduce_of_no_slash rules _ hns

theorem foldl_map_keyReduce {α : Type} (rules : List Match) (ts : List (String × α)) :
    rules.foldl (fun l e => l.map (fun kv => (reduceKey e.key kv.1, kv.2))) ts
      = ts.map (fun kv => (keyReduce rules kv.1, kv.2)) := by
  induction rules generalizing ts with
  | nil => simp [keyReduce]
  | cons e es ih =>
    show List.foldl _ (ts.map _) es = _
    rw [ih, List.map_map]
    rfl

theorem keyReduce_matched : ∀ (rules : List Match) (k : String) (e : Match),
    e ∈ rules → (e.key = k ∨ e.key = "all") → k.data.contains '/' = true →
    keyReduce rules k = String.mk (lastSeg k.data) := by
  intro rules
  induction rules with
  | nil => intro k e hmem _ _; cases hmem
  | cons e2 es ih =>
    intro k e hmem hmatch hslash
    rw [keyReduce_cons]
    have hfix : keyReduce es (String.mk (lastSeg k.data)) = String.mk (lastSeg k.data) :=
      keyReduce_of_no_slash es _
        ((contains_eq_false_iff _ _).mpr (lastSeg_no_slash k.data))
    have hcases : reduceKey e2.key k = k ∨
        reduceKey e2.key k = String.mk (lastSeg k.data) := by
      unfold reduceKey
      split
      · right; rfl
      · left; rfl
    rcases List.mem_cons.mp hmem with rfl | hmem2
    · have hred : reduceKey e.key k = String.mk (lastSeg k.data) := by
        unfold reduceKey
        have hcond : (k == e.key || e.key == "all") = true := by
          rcases hmatch with h | h
          · simp [h]
          · simp [h]
        rw [hcond, hslash]
        simp
      rw [hred]
      exact hfix
    · rcases hcases with heq | hls
      · rw [heq]; exact ih k e hmem2 hmatch hslash
      · rw [hls]; exact hfix

end XReducer

namespace XReducer

theorem applyMetric_eq (cfg : Cfg) (m : Metric) :
    applyMetric cfg m = { m with
      tags := m.tags.map (fun kv => (keyReduce cfg.tags kv.1, kv.2)),
      fields := m.fields.map (fun kv => (keyReduce cfg.fields kv.1, kv.2)) } := by
  unfold applyMetric
  rw [foldl_map_keyReduce, foldl_map_keyReduce]

theorem applyMetric_idem (cfg : Cfg) (m : Metric) :
    applyMetric cfg (applyMetric cfg m) = applyMetric cfg m := by
  simp [applyMetric_eq, List.map_map, Function.comp, keyReduce_idem]

end XReducer

/-- C9 confirmed: XReducer.Apply is idempotent — applying it twice equals
applying it once; every key containing no slash is left unchanged by the
whole rule pass; every key containing a slash that some rule matches (equal
key or the keyword all) is replaced by its last path segment; and no tag or
field value is modified (values and positions are preserved). -/
theorem xreducer_apply_idempotent (cfg : XReducer.Cfg) (ms : List Metric) :
    XReducer.Apply cfg (XReducer.Apply cfg ms) = XReducer.Apply cfg ms
    ∧ (∀ (rules : List XReducer.Match) (k : String),
        k.data.contains '/' = false → XReducer.keyReduce rules k = k)
    ∧ (∀ (rules : List XReducer.Match) (k : String) (e : XReducer.Match),
        e ∈ rules → (e.key = k ∨ e.key = "all") → k.data.contains '/' = true →
        XReducer.keyReduce rules k = String.mk (XReducer.lastSeg k.data))
    ∧ (∀ m : Metric,
        (XReducer.applyMetric cfg m).tags
            = m.tags.map (fun kv => (XReducer.keyReduce cfg.tags kv.1, kv.2))
        ∧ (XReducer.applyMetric cfg m).fields
            = m.fields.map (fun kv => (XReducer.keyReduce cfg.fields kv.1, kv.2))
        ∧ (XReducer.applyMetric cfg m).tags.map Prod.snd = m.tags.map Prod.snd
        ∧ (XReducer.applyMetric cfg m).fields.map Prod.snd = m.fields.map Prod.snd) := by
  refine ⟨?_, XReducer.keyReduce_of_no_slash, XReducer.keyReduce_matched, ?_⟩
  · unfold XReducer.Apply
    rw [List.map_map]
    exact List.map_congr_left (fun m _ => XReducer.applyMetric_idem cfg m)
  · intro m
    refine ⟨?_, ?_, ?_, ?_⟩ <;>
      simp [XReducer.applyMetric_eq, List.map_map, Function.comp]

/-- Scenario S5 instance for the C9 witness: one all rule on fields, one
metric with keys /a/b/c and x. -/
def w9Cfg : XReducer.Cfg :=
  { tags := [], fields := [⟨"all"⟩] }

def w9Metric : Metric :=
  { name := "x", tags := [("device", "r1")],
    fields := [("/a/b/c", FVal.str "v1"), ("x", FVal.str "v2")], time := 0 }

/-- Witness instantiating the C9 theorem: idempotence on a concrete batch,
the slash-free key x is unchanged and /a/b/c reduces to c. -/
theorem xreducer_apply_idempotent_witness :
    XReducer.Apply w9Cfg (XReducer.Apply w9Cfg [w9Metric]) = XReducer.Apply w9Cfg [w9Metric]
    ∧ XReducer.keyReduce [⟨"all"⟩] "x" = "x"
    ∧ XReducer.keyReduce [⟨"all"⟩] "/a/b/c" = "c" := by
  have h := xreducer_apply_idempotent w9Cfg [w9Metric]
  refine ⟨h.1, ?_, ?_⟩
  · exact h.2.1 [⟨"all"⟩] "x" (by decide)
  · have h3 := h.2.2.1 [⟨"all"⟩] "/a/b/c" ⟨"all"⟩ (by simp) (Or.inr rfl) (by decide)
    rw [h3]
    decide

namespace Xmetrictags

/-- A config entry of xmetrictags.go (struct xmetric). -/
structure XM where
  track_key : String
  tag_keys : List String
  tag_name : String
  retentionNs : Int

/-- Configuration: field entries and tag entries. -/
structure Cfg where
  fields : List XM
  tags : List XM
  periodNs : Int

/-- Cache entry `compute` of xmetrictags.go: the expiry instant (now +
retention at insertion) and the tracked value. -/
structure Compute where
  tm : Int
  track_key_value : String
deriving DecidableEq

abbrev Cache := Nat → Option Compute

/-- Mutable state of the processor. -/
structure State where
  initialized : Bool
  last_cleared : Int
  cache : Cache

/-- Sweep of xmetrictags.go: an entry is removed when now is past its stored
expiry instant. -/
def sweep (cache : Cache) (now : Int) : Cache :=
  fun k =>
    match cache k with
    | some v => if now > v.tm then none else some v
    | none => none

/-- The hastags loop: walk tag_keys, break with false on a missing tag,
otherwise append the tag value to the hash string and raise the flag. -/
def scanTags (m : Metric) : List String → String → Bool → Bool × String
  | [], hs, flag => (flag, hs)
  | t :: ts, hs, flag =>
    if hasTag m t then
      match getTag m t with
      | some value => scanTags m ts (hs ++ value) true
      | none => scanTags m ts hs flag
    else (false, hs)

/-- Second half of a field entry: when the metric has the tags but not the
tracked field, look the value up in the cache and attach the tag. -/
def fieldStep2 (e : XM) (hastags : Bool) (hs : String) (mc : Metric × Cache) :
    Metric × Cache :=
  match getField mc.1 e.track_key, hastags with
  | none, true =>
    match mc.2 (fnv64 hs) with
    | some entry => (addTag mc.1 e.tag_name entry.track_key_value, mc.2)
    | none => mc
  | _, _ => mc

/-- One field entry of Xmetrictags.Apply. The unchecked Go type assertion
value.(string) is the none case: a non-string tracked field value panics. -/
def fieldStep (now : Int) (e : XM) (mc : Metric × Cache) : Option (Metric × Cache) :=
  let sc := scanTags mc.1 e.tag_keys e.track_key false
  let step1 : Option (Metric × Cache) :=
    match getField mc.1 e.track_key, sc.1 with
    | some (FVal.str s), true =>
      if s ≠ "" then
        let a : Compute := ⟨now + e.retentionNs, s⟩
        some (addTag mc.1 e.tag_name a.track_key_value,
          Function.update mc.2 (fnv64 sc.2) (some a))
      else some mc
    | some _, true => none
    | _, _ => some mc
  step1.map (fieldStep2 e sc.1 sc.2)

/-- One tag entry of Xmetrictags.Apply: same shape as a field entry but the
tracked value is read from the tags, so it is always a string. -/
def tagStep (now : Int) (e : XM) (mc : Metric × Cache) : Metric × Cache :=
  let sc := scanTags mc.1 e.tag_keys e.track_key false
  let step1 : Metric × Cache :=
    match getTag mc.1 e.track_key, sc.1 with
    | some s, true =>
      if s ≠ "" then
        let a : Compute := ⟨now + e.retentionNs, s⟩
        (addTag mc.1 e.tag_name a.track_key_value,
          Function.update mc.2 (fnv64 sc.2) (some a))
      else mc
    | _, _ => mc
  match getTag step1.1 e.track_key, sc.1 with
  | none, true =>
    match step1.2 (fnv64 sc.2) with
    | some entry => (addTag step1.1 e.tag_name entry.track_key_value, step1.2)
    | none => step1
  | _, _ => step1

/-- Xmetrictags.Apply: lazy initialization, sweep, then field entries and tag
entries per metric, threading the cache; none propagates the panic. -/
def Apply (cfg : Cfg) (st : State) (now : Int) (metrics : List Metric) :
    Option (List Metric × State) :=
  let st1 := if !st.initialized then
      { initialized := true, last_cleared := now, cache := fun _ => none }
    else st
  let st2 := if now > st1.last_cleared + cfg.periodNs then
      { st1 with cache := sweep st1.cache now, last_cleared := now }
    else st1
  let res := metrics.foldl
      (fun (acc : Option (List Metric × Cache)) m =>
        match acc with
        | none => none
        | some (out, cache) =>
          match cfg.fields.foldl
              (fun a e =>
                match a with
                | none => none
                | some mc => fieldStep now e mc)
              (some (m, cache)) with
          | none => none
          | some mc1 =>
            let mc2 := cfg.tags.foldl (fun mc e => tagStep now e mc) mc1
            some (out ++ [mc2.1], mc2.2))
      (some ([], st2.cache))
  match res with
  | none => none
  | some (out, c) => some (out, { st2 with cache := c })

end Xmetrictags

namespace Xmetrictags

theorem addTag_fields (m : Metric) (k v : String) : (addTag m k v).fields = m.fields := rfl

theorem getField_congr {m1 m2 : Metric} (h : m1.fields = m2.fields) (k : String) :
    getField m1 k = getField m2 k := by
  unfold getField
  rw [h]

theorem fieldStep_some_fields (now : Int) (e : XM) (m : Metric) (c : Cache)
    (h : ∀ v, getField m e.track_key = some v → ∃ s, v = FVal.str s) :
    ∃ mc1, fieldStep now e (m, c) = some mc1 ∧ mc1.1.fields = m.fields := by
  unfold fieldStep
  cases hb : (scanTags m e.tag_keys e.track_key false).1 with
  | false =>
    rcases hgf : getField m e.track_key with _ | v <;>
      simp only [hb, hgf]
    · exact ⟨_, rfl, by simp [fieldStep2, hgf, hb]⟩
    · obtain ⟨s, rfl⟩ := h v hgf
      exact ⟨_, rfl, by simp [fieldStep2, hgf, hb]⟩
  | true =>
    rcases hgf : getField m e.track_key with _ | v
    · simp only [hb, hgf]
      refine ⟨_, rfl, ?_⟩
      simp only [fieldStep2, hgf, hb]
      cases hc : c (fnv64 (scanTags m e.tag_keys e.track_key false).2) <;>
        simp [hc, addTag]
    · obtain ⟨s, rfl⟩ := h v hgf
      simp only [hb, hgf]
      by_cases hs0 : s = ""
      · subst hs0
        simp only [ne_eq, not_true_eq_false, if_false, Option.map_some]
        refine ⟨_, rfl, ?_⟩
        simp [fieldStep2, hgf, hb]
      · simp only [ne_eq, hs0, not_false_eq_true, if_true, Option.map_some]
        refine ⟨_, rfl, ?_⟩
        have hgf2 : getField (addTag m e.tag_name s) e.track_key = some (FVal.str s) := by
          rw [getField_congr (addTag_fields m e.tag_name s), hgf]
        simp [fieldStep2, hgf2, hb, addTag_fields]

theorem tagStep_fields (now : Int) (e : XM) (mc : Metric × Cache) :
    ((tagStep now e mc).1).fields = mc.1.fields := by
  simp only [tagStep]
  repeat' split
  all_goals simp [addTag]

theorem foldFields_some (now : Int) :
    ∀ (es : List XM) (m : Metric) (c : Cache),
    (∀ e ∈ es, ∀ v, getField m e.track_key = some v → ∃ s, v = FVal.str s) →
    ∃ mc1, es.foldl
        (fun a e =>
          match a with
          | none => none
          | some mc => fieldStep now e mc)
        (some (m, c)) = some mc1 ∧ mc1.1.fields = m.fields := by
  intro es
  induction es with
  | nil => intro m c _; exact ⟨(m, c), rfl, rfl⟩
  | cons e es ih =>
    intro m c h
    obtain ⟨mc1, hstep, hf⟩ :=
      fieldStep_some_fields now e m c (h e (List.mem_cons_self e es))
    obtain ⟨mc2, hrest, hf2⟩ := ih mc1.1 mc1.2
      (fun e2 he2 v hv =>
        h e2 (List.mem_cons_of_mem e he2) v (by rwa [getField_congr hf] at hv))
    refine ⟨mc2, ?_, hf2.trans hf⟩
    rw [List.foldl_cons]
    show List.foldl _ (fieldStep now e (m, c)) es = some mc2
    rw [hstep]
    exact hrest

theorem foldTags_fields (now : Int) :
    ∀ (es : List XM) (mc : Metric × Cache),
    ((es.foldl (fun mc e => tagStep now e mc) mc).1).fields = mc.1.fields := by
  intro es
  induction es with
  | nil => intro mc; rfl
  | cons e es ih =>
    intro mc
    rw [List.foldl_cons]
    exact (ih (tagStep now e mc)).trans (tagStep_fields now e mc)

end Xmetrictags

/-- C10 amended claim: Xmetrictags.Apply returns normally iff the unchecked
string assertion never sees a non-string value; in particular it returns
normally on every batch in which each field configured as a track_key is
string-valued wherever present. -/
theorem xmetrictags_apply_total_of_string_track_values
    (cfg : Xmetrictags.Cfg) (st : Xmetrictags.State) (now : Int) (metrics : List Metric)
    (h : ∀ m ∈ metrics, ∀ e ∈ cfg.fields, ∀ v,
      getField m e.track_key = some v → ∃ s, v = FVal.str s) :
    (Xmetrictags.Apply cfg st now metrics).isSome = true := by
  have hloop : ∀ (ms : List Metric) (out : List Metric) (cache : Xmetrictags.Cache),
      (∀ m ∈ ms, ∀ e ∈ cfg.fields, ∀ v,
        getField m e.track_key = some v → ∃ s, v = FVal.str s) →
      (ms.foldl
        (fun (acc : Option (List Metric × Xmetrictags.Cache)) m =>
          match acc with
          | none => none
          | some (out, cache) =>
            match cfg.fields.foldl
                (fun a e =>
                  match a with
                  | none => none
                  | some mc => Xmetrictags.fieldStep now e mc)
                (some (m, cache)) with
            | none => none
            | some mc1 =>
              let mc2 := cfg.tags.foldl (fun mc e => Xmetrictags.tagStep now e mc) mc1
              some (out ++ [mc2.1], mc2.2))
        (some (out, cache))).isSome = true := by
    intro ms
    induction ms with
    | nil => intro out cache _; rfl
    | cons m ms ih =>
      intro out cache hms
      rw [List.foldl_cons]
      obtain ⟨mc1, hfold, _⟩ := Xmetrictags.foldFields_some now cfg.fields m cache
        (hms m (List.mem_cons_self m ms))
      show (List.foldl _
        (match (some (out, cache) : Option (List Metric × Xmetrictags.Cache)) with
          | none => none
          | some (out, cache) =>
            match cfg.fields.foldl _ (some (m, cache)) with
            | none => none
            | some mc1 =>
              let mc2 := cfg.tags.foldl _ mc1
              some (out ++ [mc2.1], mc2.2)) ms).isSome = true
      simp only [hfold]
      exact ih _ _ (fun m2 hm2 => hms m2 (List.mem_cons_of_mem m hm2))
  have hne : ∀ cache : Xmetrictags.Cache,
      metrics.foldl
        (fun (acc : Option (List Metric × Xmetrictags.Cache)) m =>
          match acc with
          | none => none
          | some (out, cache) =>
            match cfg.fields.foldl
                (fun a e =>
                  match a with
                  | none => none
                  | some mc => Xmetrictags.fieldStep now e mc)
                (some (m, cache)) with
            | none => none
            | some mc1 =>
              let mc2 := cfg.tags.foldl (fun mc e => Xmetrictags.tagStep now e mc) mc1
              some (out ++ [mc2.1], mc2.2))
        (some ([], cache)) ≠ none := by
    intro cache heq
    have hl := hloop metrics [] cache h
    rw [heq] at hl
    cases hl
  simp only [Xmetrictags.Apply]
  split
  · rename_i heq
    exact absurd heq (hne _)
  · rfl

/-- S6-shaped scenario against claim C10: track_key parent_ae over tag_keys
device, if_name, but the metric carries parent_ae as an int64 field. -/
def c10Entry : Xmetrictags.XM :=
  { track_key := "parent_ae", tag_keys := ["device", "if_name"],
    tag_name := "lag_id", retentionNs := 3600000000000 }

def c10Cfg : Xmetrictags.Cfg :=
  { fields := [c10Entry], tags := [], periodNs := 600000000000 }

def c10State : Xmetrictags.State :=
  { initialized := true, last_cleared := 0, cache := fun _ => none }

def c10Metric : Metric :=
  { name := "ifc", tags := [("device", "r1"), ("if_name", "ge-0")],
    fields := [("parent_ae", FVal.i64 5)], time := 0 }

/-- C10 counterexample: a metric carrying all configured tag_keys and the
track_key field with an int64 value makes Apply hit the unchecked
value.(string) assertion — the embedded Apply returns none (panic), so Apply
does not return normally for every input batch. -/
theorem xmetrictags_nonstring_track_value_panics :
    (Xmetrictags.Apply c10Cfg c10State 1 [c10Metric]).isNone = true := by
  decide

/-- Witness instantiating the amended C10 theorem: the same configuration and
batch with a string-valued track_key field returns normally. -/
theorem xmetrictags_apply_total_of_string_track_values_witness :
    (Xmetrictags.Apply c10Cfg c10State 1
      [{ c10Metric with fields := [("parent_ae", FVal.str "ae0")] }]).isSome = true := by
  have h := xmetrictags_apply_total_of_string_track_values c10Cfg c10State 1
    [{ c10Metric with fields := [("parent_ae", FVal.str "ae0")] }]
    (by
      intro m hm e he v hv
      simp only [List.mem_singleton] at hm
      subst hm
      simp only [c10Cfg, List.mem_singleton] at he
      subst he
      refine ⟨"ae0", ?_⟩
      have : getField { c10Metric with fields := [("parent_ae", FVal.str "ae0")] }
          c10Entry.track_key = some (FVal.str "ae0") := by decide
      rw [this] at hv
      exact (Option.some.inj hv).symm)
  exact h

namespace Enrichment

/-- The nested enrichment database level1 → level2 → tag assignments, with
absent keys giving no assignments (a Go nil map iterates zero times). -/
abbrev DB := String → String → List (String × String)

/-- Mutable state of the enrichment processor: the config field
RefreshPeriod is included because the source mutates it, together with the
process-wide `enrich` package variable. -/
structure State where
  refreshPeriod : Int
  initialized : Bool
  fileError : Bool
  lastUpdate : Int
  currentHash : String
  enrich : DB

/-- The refresh block of Enrichment.Apply (lines 61–119): compute the age in
whole minutes, and when uninitialized or stale open the file, hash it, and
reparse only when the hash changed. md5hex models crypto/md5+hex of the file
bytes, parseJson models encoding/json Unmarshal, open1/open2 the two
os.Open calls, copyErr an io.Copy failure (its update_db=true is dead in the
source: the hash comparison overwrites update_db in both directions). -/
def refresh (md5hex : List Nat → String) (parseJson : List Nat → DB)
    (st : State) (now : Int) (open1 open2 : Option (List Nat)) (copyErr : Bool) :
    State :=
  let delta := (now - st.lastUpdate) / 60000000000
  if st.initialized = false ∨ delta ≥ st.refreshPeriod then
    let st0 := if st.refreshPeriod ≤ 0 then { st with refreshPeriod := 60 } else st
    let ust :=
      match open1 with
      | none => (false, { st0 with fileError := true, initialized := false })
      | some bytes =>
        let update_db := copyErr
        let hashStr := md5hex bytes
        if hashStr ≠ st0.currentHash then (true, { st0 with currentHash := hashStr })
        else (false, st0)
    let update_db := ust.1
    let st1 := ust.2
    if update_db then
      match open2 with
      | none => { st1 with fileError := true, initialized := false }
      | some bytes2 =>
        { st1 with
            enrich := parseJson bytes2
            fileError := false
            initialized := true
            lastUpdate := now }
    else
      { st1 with fileError := false, initialized := true, lastUpdate := now }
  else st

end Enrichment

/-- C8 confirmed: when a scheduled refresh runs and the MD5 of the current
file bytes equals the stored hash, the state change is exactly a bump of the
last-update time (and the cleared flags): the mapping is the same object, the
hash is unchanged, nothing is reparsed; the mapping is reparsed and replaced
exactly when the hash differs. -/
theorem enrichment_refresh_hash_gate
    (md5hex : List Nat → String) (parseJson : List Nat → Enrichment.DB)
    (st : Enrichment.State) (now : Int) (bytes bytes2 : List Nat) (copyErr : Bool)
    (hrp : 0 < st.refreshPeriod)
    (htrig : st.initialized = false ∨ (now - st.lastUpdate) / 60000000000 ≥ st.refreshPeriod) :
    (md5hex bytes = st.currentHash →
      Enrichment.refresh md5hex parseJson st now (some bytes) (some bytes2) copyErr =
        { st with fileError := false, initialized := true, lastUpdate := now })
    ∧ (md5hex bytes ≠ st.currentHash →
      Enrichment.refresh md5hex parseJson st now (some bytes) (some bytes2) copyErr =
        { st with
            currentHash := md5hex bytes
            enrich := parseJson bytes2
            fileError := false
            initialized := true
            lastUpdate := now }) := by
  have h0 : ¬ st.refreshPeriod ≤ 0 := by omega
  constructor
  · intro hh
    unfold Enrichment.refresh
    rw [if_pos htrig]
    simp [h0, hh]
  · intro hh
    unfold Enrichment.refresh
    rw [if_pos htrig]
    simp [h0, hh]

/-- Witness instantiating the C8 theorem: a stale state whose stored hash
matches the file bytes only bumps the clock, and a differing hash swaps in
the reparsed mapping. -/
theorem enrichment_refresh_hash_gate_witness :
    (Enrichment.refresh (fun _ => "h") (fun _ => fun _ _ => [("site", "paris")])
        ⟨60, true, false, 0, "h", fun _ _ => []⟩ 3600000000000
        (some [123]) (some [123]) false =
      ⟨60, true, false, 3600000000000, "h", fun _ _ => []⟩)
    ∧ (Enrichment.refresh (fun _ => "g") (fun _ => fun _ _ => [("site", "paris")])
        ⟨60, true, false, 0, "h", fun _ _ => []⟩ 3600000000000
        (some [123]) (some [123]) false =
      ⟨60, true, false, 3600000000000, "g", fun _ _ => [("site", "paris")]⟩) := by
  constructor
  · exact (enrichment_refresh_hash_gate (fun _ => "h") (fun _ => fun _ _ => [("site", "paris")])
      ⟨60, true, false, 0, "h", fun _ _ => []⟩ 3600000000000 [123] [123] false
      (by decide) (Or.inr (by decide))).1 rfl
  · exact (enrichment_refresh_hash_gate (fun _ => "g") (fun _ => fun _ _ => [("site", "paris")])
      ⟨60, true, false, 0, "h", fun _ _ => []⟩ 3600000000000 [123] [123] false
      (by decide) (Or.inr (by decide))).2 (by decide)

namespace NETCONF

/-- A parsed subscription request of part_006 (struct req), restricted to
what scheduling uses: the RPC and its sample interval in nanoseconds
(`r.interval = uint64(SampleInterval.Nanoseconds())`). -/
structure Req where
  rpc : String
  interval : Nat

/-- minUint64 of part_006. -/
def minUint64 (a b : Nat) : Nat :=
  if a < b then a else b

/-- Lines 251–254: `min := uint64(100000)` then folding minUint64 over the
subscription intervals — the seed 100000 (100 µs) is part of the fold. -/
def codeMin (r : List Req) : Nat :=
  r.foldl (fun acc v => minUint64 acc v.interval) 100000

/-- Line 256: `taskInterval = uint64(time.Duration((float64(min)/float64(N))
* float64(time.Second)))` — the float64 quotient is multiplied by 10^9 and
truncated to an integer; exact rationals stand for the float arithmetic
(exact at the inputs evaluated below). -/
def codeTaskInterval (r : List Req) : Nat :=
  Int.toNat ⌊(codeMin r : ℚ) / (r.length : ℚ) * 1000000000⌋

/-- Lines 257–260: the i-th subscription's initial counter, a uint64. -/
def codeCounter (r : List Req) (i : Nat) : Nat :=
  (i * codeTaskInterval r) % (2 ^ 64)

/-- Modelled from the claim C7: min over the subscriptions' own sample
intervals and stagger = min / N, counter_i = i·stagger. -/
def claimMin (r : List Req) : Nat :=
  (r.map (fun v => v.interval)).foldr min 0xFFFFFFFFFFFFFFFF

/-- Modelled from the claim C7: counter_i = i · (claimMin / N). -/
def claimCounter (r : List Req) (i : Nat) : ℚ :=
  (i : ℚ) * ((claimMin r : ℚ) / (r.length : ℚ))

end NETCONF

/-- The failing input for C7: two subscriptions, rpc1 every 30 s and rpc2
every 60 s (intervals in nanoseconds). -/
def c7Reqs : List NETCONF.Req :=
  [⟨"<get-a/>", 30000000000⟩, ⟨"<get-b/>", 60000000000⟩]

/-- C7: the code does not compute the claimed stagger. The fold seed 100000
ns becomes the minimum (the claimed minimum is 3·10^10 ns), and the spurious
multiplication by time.Second inflates the stagger to 5·10^13 ns, so the
second subscription's initial counter lies far outside the minimum-interval
window instead of at 1.5·10^10 < 3·10^10 as the claim (and the code's own
comment about distributing RPCs over the min time frame) requires. -/
theorem netconf_stagger_seed_and_unit_bug :
    NETCONF.codeMin c7Reqs = 100000
    ∧ NETCONF.claimMin c7Reqs = 30000000000
    ∧ NETCONF.codeTaskInterval c7Reqs = 50000000000000
    ∧ NETCONF.codeCounter c7Reqs 1 = 50000000000000
    ∧ ¬ ((NETCONF.codeCounter c7Reqs 1 : ℚ) < (NETCONF.claimMin c7Reqs : ℚ))
    ∧ NETCONF.claimCounter c7Reqs 1 < (NETCONF.claimMin c7Reqs : ℚ) := by
  have htask : NETCONF.codeTaskInterval c7Reqs = 50000000000000 := by
    unfold NETCONF.codeTaskInterval
    have h1 : NETCONF.codeMin c7Reqs = 100000 := by decide
    rw [h1]
    have h2 : ((100000 : Nat) : ℚ) / ((c7Reqs.length : Nat) : ℚ) * 1000000000
        = ((50000000000000 : Int) : ℚ) := by
      norm_num [c7Reqs]
    rw [h2, Int.floor_intCast]
    rfl
  refine ⟨by decide, by decide, htask, ?_, ?_, ?_⟩
  · unfold NETCONF.codeCounter
    rw [htask]
    decide
  · unfold NETCONF.codeCounter
    rw [htask]
    norm_num
    decide
  · unfold NETCONF.claimCounter
    have h3 : NETCONF.claimMin c7Reqs = 30000000000 := by decide
    rw [h3]
    norm_num [c7Reqs]

namespace NETCONF

/-- The currentValue union of netconfMetric (interface{} in the source):
string, signed 64-bit int (Atoi / epoch UnixNano) or float64. -/
inductive MVal where
  | str (s : String)
  | int (i : Int)
  | f64 (q : ℚ)
deriving DecidableEq

/-- netconfMetric of part_006: one tracked field leaf. -/
structure NCMetric where
  shortName : String
  fieldType : String
  currentValue : MVal
  visited : Bool
  tags : List String
deriving DecidableEq

/-- tagEntry of part_006: one tag leaf. -/
structure TagEntry where
  shortName : String
  currentValue : String
  visited : Bool
deriving DecidableEq

/-- The per-rpc mutable tables: metricToSend[rpc] and tagTable[rpc]. -/
structure RpcState where
  fields : String → Option NCMetric
  tagsT : String → Option TagEntry

/-- One grouper.Add call: measurement name, the tag map, the field short
name and its value. -/
structure GroupEntry where
  measurement : String
  tags : String → Option String
  fieldKey : String
  value : MVal

/-- Go map insert on the modelled tag map. -/
def mapInsert (f : String → Option String) (k v : String) : String → Option String :=
  fun x => if x = k then some v else f x

/-- medTags of the parent branch: the map starts as {device: address} and
every visited tag leaf of the field is inserted in list order (a later
duplicate short name overwrites). -/
def buildMedTags (st : RpcState) (address : String) (med : NCMetric) :
    String → Option String :=
  med.tags.foldl
    (fun acc z =>
      match st.tagsT z with
      | some tv => if tv.visited then mapInsert acc tv.shortName tv.currentValue else acc
      | none => acc)
    (mapInsert (fun _ => none) "device" address)

/-- The emission loop of the parent branch: one grouper.Add per visited
field child of the parent, in child order. -/
def parentEmits (measurement address : String) (st : RpcState) (pval : List String) :
    List GroupEntry :=
  pval.filterMap
    (fun f =>
      match st.fields f with
      | some med =>
        if med.visited then
          some ⟨measurement, buildMedTags st address med, med.shortName, med.currentValue⟩
        else none
      | none => none)

/-- One step of the reset loop: a field child gets currentValue cleared and
visited dropped; otherwise a tag child is reset the same way. -/
def resetOne (s : RpcState) (f : String) : RpcState :=
  match s.fields f with
  | some med =>
    { s with
        fields := Function.update s.fields f
          (some { med with currentValue := MVal.str "", visited := false }) }
  | none =>
    match s.tagsT f with
    | some tag =>
      { s with
          tagsT := Function.update s.tagsT f
            (some { tag with currentValue := "", visited := false }) }
    | none => s

/-- The reset loop of the parent branch over all children. -/
def parentReset (st : RpcState) (pval : List String) : RpcState :=
  pval.foldl resetOne st

/-- Coercion environment: strconv.Atoi, strconv.ParseFloat and
time.Parse(layout).UnixNano as used by the field branch, passed as
parameters (external standard library calls). -/
structure CoerceEnv where
  atoi : String → Option Int
  parseFloat : String → Option ℚ
  parseTime : String → Option Int

/-- The field-leaf coercion switch: int, float, epoch, default string; any
conversion error falls back to the raw string. -/
def coerceValue (env : CoerceEnv) (fieldType value : String) : MVal :=
  match fieldType with
  | "int" =>
    match env.atoi value with
    | some n => MVal.int n
    | none => MVal.str value
  | "float" =>
    match env.parseFloat value with
    | some q => MVal.f64 q
    | none => MVal.str value
  | "epoch" =>
    match env.parseTime value with
    | some t => MVal.int t
    | none => MVal.str value
  | _ => MVal.str value

/-- The EndElement dispatcher of subscribeNETCONF (part_006 lines 304–407)
for one rpc: a registered parent emits its visited field children into the
grouper and resets all its children; otherwise a tag leaf records the last
character data, a field leaf coerces it per its declared type. -/
def endElementStep (env : CoerceEnv) (measurement address : String)
    (parents : String → Option (List String)) (s value : String)
    (st : RpcState) (g : List GroupEntry) : RpcState × List GroupEntry :=
  match parents s with
  | some pval => (parentReset st pval, g ++ parentEmits measurement address st pval)
  | none =>
    match st.tagsT s with
    | some tval =>
      ({ st with
          tagsT := Function.update st.tagsT s
            (some { tval with currentValue := value, visited := true }) }, g)
    | none =>
      match st.fields s with
      | some fval =>
        ({ st with
            fields := Function.update st.fields s
              (some { fval with
                        currentValue := coerceValue env fval.fieldType value
                        visited := true }) }, g)
      | none => (st, g)

/-- Modelled from the spec §4.4: the tag map of an emitted measurement,
described directly — the value at key k is the last visited tag leaf of the
field whose short name is k, and the device tag (the worker address) when no
such leaf exists. -/
def specTagValue (st : RpcState) (address : String) (med : NCMetric) (k : String) :
    Option String :=
  match med.tags.reverse.find?
      (fun z =>
        match st.tagsT z with
        | some tv => tv.visited && tv.shortName == k
        | none => false) with
  | some z =>
    match st.tagsT z with
    | some tv => some tv.currentValue
    | none => none
  | none => if k = "device" then some address else none

/-- Modelled from the spec §4.4: one measurement per visited field leaf
child of the parent, under the subscription's measurement name, carrying the
field's short name and current value and the tag map above. -/
def specRow (measurement address : String) (st : RpcState) (f : String) :
    Option GroupEntry :=
  match st.fields f with
  | some med =>
    if med.visited then
      some ⟨measurement, specTagValue st address med, med.shortName, med.currentValue⟩
    else none
  | none => none

end NETCONF

namespace NETCONF

theorem foldInsert_eq (st : RpcState) (l : List String)
    (acc : String → Option String) (k : String) :
    (l.foldl
      (fun acc z =>
        match st.tagsT z with
        | some tv => if tv.visited then mapInsert acc tv.shortName tv.currentValue else acc
        | none => acc) acc) k
    = (match l.reverse.find?
        (fun z =>
          match st.tagsT z with
          | some tv => tv.visited && tv.shortName == k
          | none => false) with
      | some z =>
        match st.tagsT z with
        | some tv => some tv.currentValue
        | none => none
      | none => acc k) := by
  induction l using List.reverseRecOn with
  | nil => rfl
  | append_singleton l z ih =>
    rw [List.foldl_append, List.foldl_cons, List.foldl_nil, List.reverse_append]
    simp only [List.reverse_singleton, List.singleton_append, List.find?_cons]
    cases htv : st.tagsT z with
    | none => simpa [htv] using ih
    | some tv =>
      cases hv : tv.visited with
      | false => simpa [htv, hv] using ih
      | true =>
        cases hk : tv.shortName == k with
        | false =>
          have hkne : k ≠ tv.shortName := by
            intro he
            rw [he] at hk
            simp at hk
          simpa [htv, hv, hk, mapInsert, hkne] using ih
        | true =>
          have hke : k = tv.shortName := by
            have := (beq_iff_eq (a := tv.shortName) (b := k)).mp hk
            exact this.symm
          simp [htv, hv, hk, mapInsert, hke]

theorem buildMedTags_eq_specTagValue (st : RpcState) (address : String) (med : NCMetric) :
    buildMedTags st address med = specTagValue st address med := by
  funext k
  unfold buildMedTags specTagValue
  rw [foldInsert_eq]
  rfl

theorem parentEmits_eq (measurement address : String) (st : RpcState) (pval : List String) :
    parentEmits measurement address st pval
      = pval.filterMap (specRow measurement address st) := by
  unfold parentEmits
  apply List.filterMap_congr
  intro f _
  unfold specRow
  cases st.fields f with
  | none => rfl
  | some med =>
    cases hv : med.visited <;> simp [hv, buildMedTags_eq_specTagValue]

theorem resetOne_fields (s : RpcState) (f x : String) :
    (resetOne s f).fields x =
      if x = f then
        match s.fields f with
        | some med => some { med with currentValue := MVal.str "", visited := false }
        | none => s.fields x
      else s.fields x := by
  unfold resetOne
  cases hf : s.fields f with
  | some med =>
    by_cases hx : x = f <;> simp [hx, hf, Function.update_apply]
  | none =>
    cases ht : s.tagsT f with
    | some tag => by_cases hx : x = f <;> simp [hx, hf]
    | none => by_cases hx : x = f <;> simp [hx, hf]

theorem resetOne_tagsT (s : RpcState) (f x : String) :
    (resetOne s f).tagsT x =
      if x = f ∧ s.fields f = none then
        match s.tagsT f with
        | some tag => some { tag with currentValue := "", visited := false }
        | none => s.tagsT x
      else s.tagsT x := by
  unfold resetOne
  cases hf : s.fields f with
  | some med =>
    by_cases hx : x = f <;> simp [hx, hf]
  | none =>
    cases ht : s.tagsT f with
    | some tag => by_cases hx : x = f <;> simp [hx, hf, ht, Function.update_apply]
    | none => by_cases hx : x = f <;> simp [hx, hf, ht]

theorem parentReset_cons (st : RpcState) (g : String) (l : List String) :
    parentReset st (g :: l) = parentReset (resetOne st g) l := rfl

theorem parentReset_fields : ∀ (l : List String) (st : RpcState) (f : String),
    (parentReset st l).fields f =
      if f ∈ l then
        match st.fields f with
        | some med => some { med with currentValue := MVal.str "", visited := false }
        | none => st.fields f
      else st.fields f := by
  intro l
  induction l with
  | nil => intro st f; simp [parentReset]
  | cons g l ih =>
    intro st f
    rw [parentReset_cons, ih, resetOne_fields]
    by_cases hf : f = g
    · subst hf
      by_cases hmem : f ∈ l <;>
        cases hfld : st.fields f <;>
          simp [hmem, hfld]
    · by_cases hmem : f ∈ l <;>
        cases hfld : st.fields f <;>
          simp [hf, hmem, hfld]

theorem parentReset_tagsT : ∀ (l : List String) (st : RpcState) (f : String),
    (parentReset st l).tagsT f =
      if f ∈ l ∧ st.fields f = none then
        match st.tagsT f with
        | some tag => some { tag with currentValue := "", visited := false }
        | none => st.tagsT f
      else st.tagsT f := by
  intro l
  induction l with
  | nil => intro st f; simp [parentReset]
  | cons g l ih =>
    intro st f
    rw [parentReset_cons, ih, resetOne_tagsT, resetOne_fields]
    by_cases hf : f = g
    · subst hf
      by_cases hmem : f ∈ l <;>
        cases hfld : st.fields f <;>
          cases htag : st.tagsT f <;>
            simp [hmem, hfld, htag]
    · by_cases hmem : f ∈ l <;>
        cases hfld : st.fields f <;>
          cases htag : st.tagsT f <;>
            simp [hf, hmem, hfld, htag]

end NETCONF

/-- C1 confirmed: when the end tag of a registered parent xpath is reached,
the grouper gains exactly one measurement per visited field leaf child of
that parent (in child order), under the subscription's measurement name,
carrying the field's short name and current value and tagged with exactly
the visited tag leaves of that field plus the device tag (spec-side
description specRow/specTagValue); afterwards the visited flag and current
value of every field child and of every tag child of that parent are reset,
and nothing outside the parent's children changes. -/
theorem netconf_parent_end_tag_rule (env : NETCONF.CoerceEnv)
    (measurement address : String) (parents : String → Option (List String))
    (s value : String) (st : NETCONF.RpcState) (g : List NETCONF.GroupEntry)
    (pval : List String) (hpar : parents s = some pval) :
    (NETCONF.endElementStep env measurement address parents s value st g).2
      = g ++ pval.filterMap (NETCONF.specRow measurement address st)
    ∧ (∀ f ∈ pval, ∀ med, st.fields f = some med →
        (NETCONF.endElementStep env measurement address parents s value st g).1.fields f
          = some { med with currentValue := NETCONF.MVal.str "", visited := false })
    ∧ (∀ f ∈ pval, st.fields f = none → ∀ tag, st.tagsT f = some tag →
        (NETCONF.endElementStep env measurement address parents s value st g).1.tagsT f
          = some { tag with currentValue := "", visited := false })
    ∧ (∀ x, x ∉ pval →
        (NETCONF.endElementStep env measurement address parents s value st g).1.fields x
            = st.fields x
        ∧ (NETCONF.endElementStep env measurement address parents s value st g).1.tagsT x
            = st.tagsT x)
    ∧ (∀ f, st.fields f ≠ none →
        (NETCONF.endElementStep env measurement address parents s value st g).1.tagsT f
          = st.tagsT f) := by
  unfold NETCONF.endElementStep
  simp only [hpar]
  refine ⟨?_, ?_, ?_, ?_, ?_⟩
  · rw [NETCONF.parentEmits_eq]
  · intro f hf med hmed
    show (NETCONF.parentReset st pval).fields f = _
    rw [NETCONF.parentReset_fields]
    simp [hf, hmed]
  · intro f hf hnone tag htag
    show (NETCONF.parentReset st pval).tagsT f = _
    rw [NETCONF.parentReset_tagsT]
    simp [hf, hnone, htag]
  · intro x hx
    constructor
    · show (NETCONF.parentReset st pval).fields x = _
      rw [NETCONF.parentReset_fields]
      simp [hx]
    · show (NETCONF.parentReset st pval).tagsT x = _
      rw [NETCONF.parentReset_tagsT]
      simp [hx]
  · intro f hne
    show (NETCONF.parentReset st pval).tagsT f = _
    rw [NETCONF.parentReset_tagsT]
    simp [hne]

/-- Concrete instance for the C1 witness, following the sample config: the
parent physical-interface has a name tag leaf and a speed field leaf, both
visited. -/
def w1FieldX : String := "/interface-information/physical-interface/speed"

def w1TagX : String := "/interface-information/physical-interface/name"

def w1Parent : String := "/interface-information/physical-interface"

def w1Med : NETCONF.NCMetric :=
  ⟨"speed", "string", NETCONF.MVal.str "1000mbps", true, [w1TagX]⟩

def w1Tag : NETCONF.TagEntry := ⟨"name", "ge-0/0/0", true⟩

def w1State : NETCONF.RpcState :=
  ⟨fun x => if x = w1FieldX then some w1Med else none,
   fun x => if x = w1TagX then some w1Tag else none⟩

def w1Parents : String → Option (List String) :=
  fun x => if x = w1Parent then some [w1TagX, w1FieldX] else none

def w1Env : NETCONF.CoerceEnv := ⟨fun _ => none, fun _ => none, fun _ => none⟩

/-- Witness instantiating the C1 theorem: at the parent's end tag the
grouper receives exactly the speed row described by the spec, and both the
field leaf and the name tag leaf are reset. -/
theorem netconf_parent_end_tag_rule_witness :
    (NETCONF.endElementStep w1Env "ifcounters" "10.0.0.1" w1Parents w1Parent "" w1State []).2
      = [] ++ [w1TagX, w1FieldX].filterMap (NETCONF.specRow "ifcounters" "10.0.0.1" w1State)
    ∧ (NETCONF.endElementStep w1Env "ifcounters" "10.0.0.1" w1Parents w1Parent ""
        w1State []).1.fields w1FieldX
      = some { w1Med with currentValue := NETCONF.MVal.str "", visited := false }
    ∧ (NETCONF.endElementStep w1Env "ifcounters" "10.0.0.1" w1Parents w1Parent ""
        w1State []).1.tagsT w1TagX
      = some { w1Tag with currentValue := "", visited := false }
    ∧ NETCONF.specTagValue w1State "10.0.0.1" w1Med "name" = some "ge-0/0/0"
    ∧ NETCONF.specTagValue w1State "10.0.0.1" w1Med "device" = some "10.0.0.1" := by
  have h := netconf_parent_end_tag_rule w1Env "ifcounters" "10.0.0.1" w1Parents
    w1Parent "" w1State [] [w1TagX, w1FieldX] (by simp [w1Parents])
  refine ⟨h.1, ?_, ?_, ?_, ?_⟩
  · exact h.2.1 w1FieldX (by decide) w1Med (by simp [w1State])
  · exact h.2.2.1 w1TagX (by decide) (by simp [w1State, w1TagX, w1FieldX])
      w1Tag (by simp [w1State])
  · decide
  · decide

namespace Gnmi

/-- gNMI PathElem: element name and its key map. -/
structure PathElem where
  name : String
  keys : List (String × String)
deriving DecidableEq

/-- The gNMI path produced by parsePath: origin, target, the structured
elements and the legacy Element strings. -/
structure GnmiPath where
  origin : String
  target : String
  elem : List PathElem
  element : List String
deriving DecidableEq

/-- The scanning state of parsePath. The index variables of the source are
carried as buffers: nameBuf is pathToParse[start:end], allBuf is
pathToParse[start:i], keyBuf is pathToParse[name:value−1], valBuf is
pathToParse[value:i]; endSet, inPred and hasVal are end ≥ 0, name ≥ 0 and
value ≥ 0. -/
structure PState where
  elems : List PathElem
  elemsStr : List String
  nameBuf : List Char
  allBuf : List Char
  keys : List (String × String)
  keyBuf : List Char
  valBuf : List Char
  endSet : Bool
  inPred : Bool
  hasVal : Bool
deriving DecidableEq

def initState : PState := ⟨[], [], [], [], [], [], [], false, false, false⟩

def isQuote (c : Char) : Bool := c = Char.ofNat 39 || c = '"'

/-- strings.Trim(v, quote cutset). -/
def trimQuotes (l : List Char) : List Char :=
  ((l.dropWhile isQuote).reverse.dropWhile isQuote).reverse

/-- A non-special character lands in the buffer the indices would slice. -/
def pushChar (st : PState) (c : Char) : PState :=
  { st with
      allBuf := st.allBuf ++ [c]
      nameBuf := if !st.endSet then st.nameBuf ++ [c] else st.nameBuf
      keyBuf := if st.inPred && !st.hasVal then st.keyBuf ++ [c] else st.keyBuf
      valBuf := if st.inPred && st.hasVal then st.valBuf ++ [c] else st.valBuf }

/-- One loop iteration of parsePath; stop is the break statement. -/
inductive StepRes where
  | cont (st : PState)
  | stop (st : PState)

/-- The character dispatch of parsePath (gnmi.go lines 553–590). -/
def ppStep (st : PState) (c : Char) : StepRes :=
  if c = '[' then
    if st.inPred then .stop st
    else
      let st1 := if st.endSet then st else { st with endSet := true, keys := [] }
      .cont { st1 with inPred := true, keyBuf := [], allBuf := st.allBuf ++ [c] }
  else if c = '=' then
    if !st.inPred || st.hasVal then .stop st
    else .cont { st with hasVal := true, valBuf := [], allBuf := st.allBuf ++ [c] }
  else if c = ']' then
    if !st.inPred || !st.hasVal then .stop st
    else .cont { st with
        keys := kvPut st.keys (String.mk st.keyBuf) (String.mk (trimQuotes st.valBuf))
        inPred := false
        hasVal := false
        allBuf := st.allBuf ++ [c] }
  else if c = '/' then
    if st.inPred then .cont (pushChar st c)
    else if st.nameBuf ≠ [] then
      .cont { elems := st.elems ++ [⟨String.mk st.nameBuf, st.keys⟩]
              elemsStr := st.elemsStr ++ [String.mk st.allBuf]
              nameBuf := []
              allBuf := []
              keys := []
              keyBuf := st.keyBuf
              valBuf := st.valBuf
              endSet := false
              inPred := false
              hasVal := false }
    else
      .cont { st with nameBuf := [], allBuf := [], keys := [], endSet := false }
  else .cont (pushChar st c)

/-- The scan loop; a stop abandons the remaining characters. -/
def ppRun : List Char → PState → PState
  | [], st => st
  | c :: cs, st =>
    match ppStep st c with
    | .cont st2 => ppRun cs st2
    | .stop st2 => st2

/-- parsePath of gnmi.go: the leading-slash check, the scan of
pathToParse ++ "/", and the final invalid-path check name ≥ 0 ∨ value ≥ 0. -/
def parsePath (origin pathToParse target : String) : Except String GnmiPath :=
  if pathToParse.data ≠ [] ∧ pathToParse.data.headD ' ' ≠ '/' then
    .error ("path does not start with a / : " ++ pathToParse)
  else
    let final := ppRun (pathToParse ++ "/").data initState
    if final.inPred || final.hasVal then
      .error ("Invalid gNMI path: " ++ pathToParse ++ "/")
    else
      .ok ⟨origin, target, final.elems, final.elemsStr⟩

/-- The two flag-machine states inside a bracket predicate, plus outside. -/
inductive ScanFlag where
  | outside
  | key
  | val
deriving DecidableEq

/-- The spec-level characterization of the scan: does it terminate inside a
bracket predicate?  Stray = or ] outside a predicate end the scan silently;
a [ inside a predicate, a second = inside a predicate, or a ] before any =
terminate it inside one; exhaustion reports the current flag. -/
def endsInPred : List Char → ScanFlag → Bool
  | [], f => f != ScanFlag.outside
  | c :: cs, .outside =>
    if c = '[' then endsInPred cs .key
    else if c = '=' ∨ c = ']' then false
    else endsInPred cs .outside
  | c :: cs, .key =>
    if c = '[' ∨ c = ']' then true
    else if c = '=' then endsInPred cs .val
    else endsInPred cs .key
  | c :: cs, .val =>
    if c = '[' ∨ c = '=' then true
    else if c = ']' then endsInPred cs .outside
    else endsInPred cs .val

/-- The flag state corresponding to a parser state. -/
def flagOf (st : PState) : ScanFlag :=
  if st.inPred then (if st.hasVal then ScanFlag.val else ScanFlag.key)
  else ScanFlag.outside

end Gnmi

namespace Gnmi

theorem ppRun_err : ∀ (cs : List Char) (st : PState),
    (st.hasVal = true → st.inPred = true) →
    ((ppRun cs st).inPred || (ppRun cs st).hasVal) = endsInPred cs (flagOf st) := by
  intro cs
  induction cs with
  | nil =>
    intro st inv
    cases hp : st.inPred with
    | true => cases hv : st.hasVal <;> simp [ppRun, endsInPred, flagOf, hp, hv]
    | false =>
      have hv : st.hasVal = false := by
        cases hhv : st.hasVal
        · rfl
        · rw [inv hhv] at hp; cases hp
      simp [ppRun, endsInPred, flagOf, hp, hv]
  | cons c cs ih =>
    intro st inv
    have hrun : ppRun (c :: cs) st
        = (match ppStep st c with
           | .cont st2 => ppRun cs st2
           | .stop st2 => st2) := rfl
    rw [hrun]
    by_cases h1 : c = '['
    · subst h1
      cases hp : st.inPred with
      | true =>
        cases hv : st.hasVal <;>
          simp [ppStep, endsInPred, flagOf, hp, hv]
      | false =>
        have hv : st.hasVal = false := by
          cases hhv : st.hasVal
          · rfl
          · rw [inv hhv] at hp; cases hp
        cases hE : st.endSet with
        | true =>
          have hstep : ppStep st '[' = StepRes.cont
              { st with inPred := true, keyBuf := [], allBuf := st.allBuf ++ ['['] } := by
            simp [ppStep, hp, hE]
          simp only [hstep]
          refine (ih _ ?_).trans ?_
          · exact (fun _ => rfl)
          · simp [flagOf, endsInPred, hp, hv]
        | false =>
          have hstep : ppStep st '[' = StepRes.cont
              { st with
                  endSet := true
                  keys := []
                  inPred := true
                  keyBuf := []
                  allBuf := st.allBuf ++ ['['] } := by
            simp [ppStep, hp, hE]
          simp only [hstep]
          refine (ih _ ?_).trans ?_
          · exact (fun _ => rfl)
          · simp [flagOf, endsInPred, hp, hv]
    · by_cases h2 : c = '='
      · subst h2
        cases hp : st.inPred with
        | false =>
          have hv : st.hasVal = false := by
            cases hhv : st.hasVal
            · rfl
            · rw [inv hhv] at hp; cases hp
          simp [ppStep, h1, hp, hv, endsInPred, flagOf]
        | true =>
          cases hv : st.hasVal with
          | true => simp [ppStep, h1, hp, hv, endsInPred, flagOf]
          | false =>
            have hstep : ppStep st '=' = StepRes.cont
                { st with hasVal := true, valBuf := [], allBuf := st.allBuf ++ ['='] } := by
              simp [ppStep, h1, hp, hv]
            simp only [hstep]
            refine (ih _ ?_).trans ?_
            · exact (fun _ => hp)
            · simp [flagOf, endsInPred, hp, hv]
      · by_cases h3 : c = ']'
        · subst h3
          cases hp : st.inPred with
          | false =>
            have hv : st.hasVal = false := by
              cases hhv : st.hasVal
              · rfl
              · rw [inv hhv] at hp; cases hp
            simp [ppStep, h1, h2, hp, hv, endsInPred, flagOf]
          | true =>
            cases hv : st.hasVal with
            | false => simp [ppStep, h1, h2, hp, hv, endsInPred, flagOf]
            | true =>
              have hstep : ppStep st ']' = StepRes.cont
                  { st with
                      keys := kvPut st.keys (String.mk st.keyBuf)
                        (String.mk (trimQuotes st.valBuf))
                      inPred := false
                      hasVal := false
                      allBuf := st.allBuf ++ [']'] } := by
                simp [ppStep, h1, h2, hp, hv]
              simp only [hstep]
              refine (ih _ ?_).trans ?_
              · exact (fun h => by simp at h)
              · simp [flagOf, endsInPred, hp, hv]
        · by_cases h4 : c = '/'
          · subst h4
            cases hp : st.inPred with
            | true =>
              have hstep : ppStep st '/' = StepRes.cont (pushChar st '/') := by
                simp [ppStep, h1, h2, h3, hp]
              cases hv : st.hasVal <;>
                (simp only [hstep]
                 refine (ih _ ?_).trans ?_
                 · exact inv
                 · simp [flagOf, endsInPred, pushChar, hp, hv])
            | false =>
              have hv : st.hasVal = false := by
                cases hhv : st.hasVal
                · rfl
                · rw [inv hhv] at hp; cases hp
              by_cases hn : st.nameBuf = []
              · have hstep : ppStep st '/' = StepRes.cont
                    { st with nameBuf := [], allBuf := [], keys := [], endSet := false } := by
                  simp [ppStep, h1, h2, h3, hp, hn]
                simp only [hstep]
                refine (ih _ ?_).trans ?_
                · exact inv
                · simp [flagOf, endsInPred, hp, hv]
              · have hstep : ppStep st '/' = StepRes.cont
                    { elems := st.elems ++ [⟨String.mk st.nameBuf, st.keys⟩]
                      elemsStr := st.elemsStr ++ [String.mk st.allBuf]
                      nameBuf := []
                      allBuf := []
                      keys := []
                      keyBuf := st.keyBuf
                      valBuf := st.valBuf
                      endSet := false
                      inPred := false
                      hasVal := false } := by
                  simp [ppStep, h1, h2, h3, hp, hn]
                simp only [hstep]
                refine (ih _ ?_).trans ?_
                · exact (fun h => by simp at h)
                · simp [flagOf, endsInPred, hp, hv]
          · have hstep : ppStep st c = StepRes.cont (pushChar st c) := by
              simp [ppStep, h1, h2, h3, h4]
            cases hp : st.inPred with
            | true =>
              cases hv : st.hasVal <;>
                (simp only [hstep]
                 refine (ih _ ?_).trans ?_
                 · exact inv
                 · simp [flagOf, endsInPred, pushChar, hp, hv, h1, h2, h3, h4])
            | false =>
              have hv : st.hasVal = false := by
                cases hhv : st.hasVal
                · rfl
                · rw [inv hhv] at hp; cases hp
              simp only [hstep]
              refine (ih _ ?_).trans ?_
              · exact inv
              · simp [flagOf, endsInPred, pushChar, hp, hv, h1, h2, h3, h4]

end Gnmi

/-- The claim's error set, modelled from its words: a non-empty path not
starting with a slash, unbalanced brackets (including a stray close
bracket), or a second open bracket inside a predicate. -/
def specBracketBad : List Char → Nat → Bool
  | [], d => d != 0
  | c :: cs, d =>
    if c = '[' then (if d > 0 then true else specBracketBad cs 1)
    else if c = ']' then (if d = 0 then true else specBracketBad cs (d - 1))
    else specBracketBad cs d

/-- Claim C6 as stated: parsePath errs exactly on these inputs. -/
def claimC6Err (p : String) : Bool :=
  (!p.data.isEmpty && p.data.headD ' ' != '/') || specBracketBad p.data 0

/-- C6 counterexample: the claim's error set is wrong in both directions.
/a[k] (balanced brackets, bare key) and /a[k=v=w] (balanced brackets, second
equals sign) are rejected by the code although the claim says they parse;
/a]b (a stray close bracket, unbalanced by the claim's reading) is accepted
without error, the scan silently stopping at the bracket. A well-formed path
parses to the expected structure. -/
theorem gnmi_parsePath_error_set_refutes_claim :
    ((Gnmi.parsePath "" "/a[k]" "").isOk = false ∧ claimC6Err "/a[k]" = false)
    ∧ ((Gnmi.parsePath "" "/a]b" "").isOk = true ∧ claimC6Err "/a]b" = true)
    ∧ ((Gnmi.parsePath "" "/a[k=v=w]" "").isOk = false ∧ claimC6Err "/a[k=v=w]" = false)
    ∧ (Gnmi.parsePath "o" "/a/b[k=v]/c" "t").toOption
        = some ⟨"o", "t", [⟨"a", []⟩, ⟨"b", [("k", "v")]⟩, ⟨"c", []⟩],
            ["a", "b[k=v]", "c"]⟩ := by
  refine ⟨⟨?_, ?_⟩, ⟨?_, ?_⟩, ⟨?_, ?_⟩, ?_⟩ <;> decide

/-- C6 amended claim: parsePath returns an error exactly when the path is
non-empty and does not start with a slash, or when the left-to-right scan of
path ++ "/" terminates inside a bracket predicate — an unclosed predicate, a
second open bracket inside a predicate, a close bracket before any equals
sign (bare [key]), or a second equals sign inside a predicate; a stray
equals sign or close bracket outside a predicate silently ends the scan
without an error. The parser is a pure function of its arguments. -/
theorem gnmi_parsePath_error_iff (origin p target : String) :
    (Gnmi.parsePath origin p target).isOk = false
      ↔ ((p.data ≠ [] ∧ p.data.headD ' ' ≠ '/')
          ∨ Gnmi.endsInPred (p ++ "/").data Gnmi.ScanFlag.outside = true) := by
  unfold Gnmi.parsePath
  by_cases hbad : p.data ≠ [] ∧ p.data.headD ' ' ≠ '/'
  · constructor
    · intro _
      exact Or.inl hbad
    · intro _
      rw [if_pos hbad]
      rfl
  · rw [if_neg hbad]
    have h := Gnmi.ppRun_err (p ++ "/").data Gnmi.initState
      (fun hh => by simp [Gnmi.initState] at hh)
    rw [show Gnmi.flagOf Gnmi.initState = Gnmi.ScanFlag.outside from rfl] at h
    rw [← h]
    constructor
    · intro hfalse
      by_cases hx : ((Gnmi.ppRun (p ++ "/").data Gnmi.initState).inPred
          || (Gnmi.ppRun (p ++ "/").data Gnmi.initState).hasVal) = true
      · exact Or.inr hx
      · rw [if_neg hx] at hfalse
        simp [Except.isOk, Except.toBool] at hfalse
    · intro hrhs
      rcases hrhs with hl | hr
      · exact absurd hl hbad
      · rw [if_pos hr]
        rfl
